import Mathlib

/-!
Verification of the valuation-app repository core against its specification.

The development shallowly embeds the two algorithmic source files:

* `src/lib/valuations/rule1.ts` — the Rule #1 valuation engine (namespace `Rule1`);
* `src/app/api/financials/route.ts` — the fact-normalization pipeline, nearest-date
  lookups and the price-history binary search (namespace `Financials`).

Modelling conventions, used throughout:

* JavaScript `number` values are modelled as `ℝ` in the valuation engine (where
  `Math.pow` with a real exponent occurs) and as `ℚ` in the normalization pipeline
  (where all operations are exact).  `NaN`/`Infinity` are not representable, so
  `Number.isFinite` tests on values already of numeric type are modelled as `true`,
  and a field that may be absent or non-numeric (`x.val`, `x.end`, …) is an `Option`
  whose `none` covers both `undefined` and non-finite contents.
* JavaScript string comparison (`<`, `<=`, and `localeCompare` on same-format
  ISO-date strings) is lexicographic comparison of the character sequences; it is
  modelled by the executable comparator `strLtB`/`strLeB` on `String.data`.
* `Array.prototype.sort` with a consistent comparator is a stable sort; it is
  modelled by `List.insertionSort`, which is stable and sorted, hence extensionally
  equal to the source's sort.
-/

/-- Lexicographic strict comparison of character lists, modelling the JavaScript
`<` operator on strings (comparison of code units; all strings relevant here are
ASCII, where code-unit and code-point order agree). -/
def strLtB : List Char → List Char → Bool
  | [], [] => false
  | [], _ :: _ => true
  | _ :: _, [] => false
  | a :: as, b :: bs => if a < b then true else if b < a then false else strLtB as bs

/-- Lexicographic `<=` on character lists, modelling the JavaScript `<=`
(equivalently, `localeCompare(...) <= 0` on the same-format ASCII strings that
occur as period-end keys). -/
def strLeB (a b : List Char) : Bool := !(strLtB b a)

namespace Rule1

/-- `SeriesPoint` from rule1.ts: `end` is the ISO period-end string (field renamed
`end_` since `end` is a Lean keyword), `val` the numeric value (a float, modelled
as a real number). -/
structure SeriesPoint where
  end_ : String
  val : ℝ

/-- The `GrowthBasis` string union from rule1.ts. -/
inductive GrowthBasis
  | bvps_5y | bvps_10y | fcf_5y | fcf_10y | eps_5y | eps_10y
deriving DecidableEq

/-- `growthBasisLabel` from rule1.ts. -/
def growthBasisLabel : GrowthBasis → String
  | .bvps_5y => "BVPS last 5 years"
  | .bvps_10y => "BVPS last 10 years"
  | .fcf_5y => "Free Cash Flow last 5 years"
  | .fcf_10y => "Free Cash Flow last 10 years"
  | .eps_5y => "EPS last 5 years"
  | .eps_10y => "EPS last 10 years"

/-- `Rule1Inputs` from rule1.ts.  `historicPeRatio` and `latestPriceUSD` are
`number | null`; `none` models both `null` and a non-finite number (the code
treats a non-finite `historicPeRatio` exactly like `null`). -/
structure Rule1Inputs where
  eps : List SeriesPoint
  bookValuePerShareUSD : List SeriesPoint
  freeCashFlowUSD : List SeriesPoint
  historicPeRatio : Option ℝ
  latestPriceUSD : Option ℝ

/-- `Rule1Knobs` from rule1.ts. -/
structure Rule1Knobs where
  years : ℝ
  analystGrowth : ℝ
  desiredReturn : ℝ
  marginOfSafetyPercent : ℝ
  growthBasis : GrowthBasis

/-- The `error` payload of `Rule1Failure` from rule1.ts.  The constant
discriminator `type: "GROWTH_BASIS_UNAVAILABLE"` is omitted (it is the same on
every failure); the remaining fields are carried verbatim. -/
structure Rule1Failure where
  message : String
  growthBasis : GrowthBasis
  pointsNeeded : ℕ
  pointsAvailable : ℕ

/-- The `basis` sub-record of `Rule1Result` from rule1.ts. -/
structure BasisDetail where
  key : GrowthBasis
  label : String
  pointsUsed : ℕ
  yearsActual : ℤ
  startEnd : String
  endEnd : String
  startVal : ℝ
  endVal : ℝ
  growth : ℝ

/-- `Rule1Result` from rule1.ts. -/
structure Rule1Result where
  latestEps : ℝ
  basis : BasisDetail
  chosenGrowth : ℝ
  historicPeUsed : ℝ
  futureValue : ℝ
  stickerPrice : ℝ
  stickerPriceWithMOS : ℝ
  currentPrice : Option ℝ

/-- `yearOf` from rule1.ts: `Number(end.slice(0, 4))`.  The first four characters
are parsed as a decimal number; a slice that is not all digits yields `NaN` in the
source, modelled here as `0` (no claim depends on that corner). -/
def yearOf (e : String) : ℤ :=
  let l := e.data.take 4
  if l.all Char.isDigit then ((l.foldl (fun n c => n * 10 + (c.toNat - 48)) 0 : ℕ) : ℤ) else 0

/-- `cagr` from rule1.ts.  The two `Number.isFinite` guards are always true in the
real-number model; the `years <= 0` and non-positive-endpoint guards are kept.
`Math.pow` is modelled by the real power `Real.rpow`. -/
noncomputable def cagr (start e years : ℝ) : ℝ :=
  if years ≤ 0 then 0
  else if start ≤ 0 ∨ e ≤ 0 then 0
  else (e / start) ^ ((1 : ℝ) / years) - 1

/-- `normalizeSeries` from rule1.ts. The filter (element truthy, `val` finite,
`end` a string) is the identity in this model, where every `SeriesPoint` has a
string key and a (finite) real value; the stable comparator sort on the `end`
strings is `insertionSort` with the lexicographic comparator. -/
def normalizeSeries (series : List SeriesPoint) : List SeriesPoint :=
  series.insertionSort fun a b => strLeB a.end_.data b.end_.data = true

/-- The record returned by `computeGrowthByPoints` in rule1.ts. -/
structure GrowthOut where
  start : SeriesPoint
  end_ : SeriesPoint
  yearsActual : ℤ
  growth : ℝ

/-- `computeGrowthByPoints` from rule1.ts.  With fewer than `points` points the
source returns `null`.  (`points = 0`, never passed by any caller — the callers
pass 6 or 10 — would make the source index `s[-1]` and crash; that unreachable
corner is modelled as `none` as well.) -/
noncomputable def computeGrowthByPoints (series : List SeriesPoint) (points : ℕ) :
    Option GrowthOut :=
  let s := normalizeSeries series
  if h : s.length < points ∨ points = 0 then none
  else
    let e := s.get ⟨s.length - 1, by omega⟩
    let st := s.get ⟨s.length - points, by omega⟩
    let yearsActual : ℤ := max 1 (yearOf e.end_ - yearOf st.end_)
    some { start := st, end_ := e, yearsActual := yearsActual,
           growth := cagr st.val e.val (yearsActual : ℝ) }

/-- `pointsNeededForBasis` from rule1.ts. -/
def pointsNeededForBasis : GrowthBasis → ℕ
  | .bvps_5y | .fcf_5y | .eps_5y => 6
  | .bvps_10y | .fcf_10y | .eps_10y => 10

/-- The `basisSeries` selection inlined in `calculateRule1` (the
`if basisKey === ...` chain choosing between the three input series). -/
def basisSeriesOf (inputs : Rule1Inputs) : GrowthBasis → List SeriesPoint
  | .bvps_5y | .bvps_10y => inputs.bookValuePerShareUSD
  | .fcf_5y | .fcf_10y => inputs.freeCashFlowUSD
  | .eps_5y | .eps_10y => inputs.eps

/-- `calculateRule1` from rule1.ts.  The result type
`Rule1Result ⊕ Rule1Failure` inside `Option` models the
`Rule1ResultOrFailure | null` return (the union is disjoint by construction,
exactly as in the source where a failure is the record with the `error` field).
`epsSeries.length === 0` is tested via `getLast?` (which also supplies
`epsSeries[epsSeries.length - 1]`), and the `pe` guard
`pe === null || !Number.isFinite(pe) || pe <= 0` collapses to
`none`-or-nonpositive in the real-number model. -/
noncomputable def calculateRule1 (inputs : Rule1Inputs) (knobs : Rule1Knobs) :
    Option (Sum Rule1Result Rule1Failure) :=
  match (normalizeSeries inputs.eps).getLast? with
  | none => none
  | some lastPoint =>
    let latestEps := lastPoint.val
    match inputs.historicPeRatio with
    | none => none
    | some pe =>
      if pe ≤ 0 then none
      else
        let basisKey := knobs.growthBasis
        let basisLabel := growthBasisLabel basisKey
        let basisSeries := basisSeriesOf inputs basisKey
        let pointsNeeded := pointsNeededForBasis basisKey
        let normalized := normalizeSeries basisSeries
        let pointsAvailable := normalized.length
        match computeGrowthByPoints normalized pointsNeeded with
        | none =>
          some (Sum.inr
            { message := "Not enough data to compute " ++ basisLabel ++ " (need " ++
                toString pointsNeeded ++ " annual points, have " ++
                toString pointsAvailable ++ ")"
              growthBasis := basisKey
              pointsNeeded := pointsNeeded
              pointsAvailable := pointsAvailable })
        | some g =>
          let basisGrowth := g.growth
          let chosenGrowth := min knobs.analystGrowth basisGrowth
          let futureValue := latestEps * pe * (1 + chosenGrowth) ^ knobs.years
          let stickerPrice := futureValue / (1 + knobs.desiredReturn) ^ knobs.years
          let mosFactor := max 0 (min 1 ((100 - knobs.marginOfSafetyPercent) / 100))
          let stickerPriceWithMOS := stickerPrice * mosFactor
          some (Sum.inl
            { latestEps := latestEps
              basis :=
                { key := basisKey
                  label := basisLabel
                  pointsUsed := pointsNeeded
                  yearsActual := g.yearsActual
                  startEnd := g.start.end_
                  endEnd := g.end_.end_
                  startVal := g.start.val
                  endVal := g.end_.val
                  growth := basisGrowth }
              chosenGrowth := chosenGrowth
              historicPeUsed := pe
              futureValue := futureValue
              stickerPrice := stickerPrice
              stickerPriceWithMOS := stickerPriceWithMOS
              currentPrice := inputs.latestPriceUSD })

end Rule1

namespace Financials

/-- A raw filed fact, one element of a `units` array in the SEC companyfacts
object consumed by route.ts.  Each field is optional: `none` models a missing
field, a field of the wrong runtime type, or (for `val`) a non-finite number —
exactly the situations in which the source's `typeof`/`Number.isFinite` guards
reject the fact.  A `null` array element behaves like a fact with no fields. -/
structure RawFact where
  end_ : Option String
  val : Option ℚ
  form : Option String
  fp : Option String
  frame : Option String
deriving DecidableEq

/-- The `units` object of one tag: unit key → array of raw facts.  JavaScript
object keys are unique and ordered; an association list models both. -/
abbrev UnitsMap := List (String × List RawFact)

/-- The `facts["us-gaap"]` object: tag → units. -/
structure CompanyFacts where
  usGaap : List (String × UnitsMap)
deriving DecidableEq

/-- `facts?.facts?.["us-gaap"]?.[tag]` (property lookup). -/
def lookupTag (facts : CompanyFacts) (tag : String) : Option UnitsMap :=
  (facts.usGaap.find? fun p => p.1 == tag).map Prod.snd

/-- `node[unitKey]` (property lookup in a units object). -/
def lookupUnit (units : UnitsMap) (u : String) : Option (List RawFact) :=
  (units.find? fun p => p.1 == u).map Prod.snd

/-- `YearPoint` from route.ts: `{ end: string; val: number }`. -/
structure YearPoint where
  end_ : String
  val : ℚ
deriving DecidableEq

/-- The regular-expression test `/Q[1-4]/.test(frame)`: does the character list
contain a `'Q'` immediately followed by a digit `1`–`4`? -/
def hasQuarterMark : List Char → Bool
  | 'Q' :: c :: rest => (c == '1' || c == '2' || c == '3' || c == '4') || hasQuarterMark (c :: rest)
  | _ :: rest => hasQuarterMark rest
  | [] => false

/-- `typeof x.frame === "string" && /Q[1-4]/.test(x.frame)` from route.ts. -/
def frameLooksQuarterly : Option String → Bool
  | some s => hasQuarterMark s.data
  | none => false

/-- The qualifying filter + map shared by `pickAnnualSeriesByUnit` and
`mergeAnnualUSDSeries` in route.ts (the source spells it out twice, verbatim):
keep facts with `form === "10-K"`, `fp === "FY"`, a string `end`, a finite `val`
and no quarterly-looking frame, and project to `{end, val}`. -/
def annualFactsOf (arr : List RawFact) : List YearPoint :=
  arr.filterMap fun x =>
    match x.end_, x.val with
    | some e, some v =>
      if x.form == some "10-K" && x.fp == some "FY" && !frameLooksQuarterly x.frame
      then some ⟨e, v⟩ else none
    | _, _ => none

/-- One step of the `byEnd` JavaScript `Map`:
`if (prev === undefined || Math.abs(p.val) > Math.abs(prev)) byEnd.set(p.end, p.val)`.
A JavaScript `Map` keeps keys in first-insertion order and updates values in
place, which is exactly in-place update on an association list. -/
def updateByEnd (m : List (String × ℚ)) (e : String) (v : ℚ) : List (String × ℚ) :=
  match m with
  | [] => [(e, v)]
  | (e', v') :: rest =>
    if e' = e then (e', if |v| > |v'| then v else v') :: rest
    else (e', v') :: updateByEnd rest e v

/-- The `byEnd` deduplication loop from route.ts. -/
def dedupByEnd (l : List YearPoint) : List (String × ℚ) :=
  l.foldl (fun m p => updateByEnd m p.end_ p.val) []

/-- `.sort((a, b) => a.end.localeCompare(b.end))` from route.ts: a stable sort by
the period-end string (on the ISO-date keys in play, `localeCompare` order
coincides with code-unit order). -/
def sortYearPoints (l : List YearPoint) : List YearPoint :=
  l.insertionSort fun a b => strLeB a.end_.data b.end_.data = true

/-- `Array.from(byEnd.entries()).map(([end, val]) => ({end, val})).sort(...)` —
the deduplicate-then-sort tail shared by `pickAnnualSeriesByUnit` and
`mergeAnnualUSDSeries`. -/
def dedupAndSort (l : List YearPoint) : List YearPoint :=
  sortYearPoints ((dedupByEnd l).map fun p => ⟨p.1, p.2⟩)

/-- The body of one iteration of `pickAnnualSeriesByUnit`'s tag loop in
route.ts: look the tag up, find the first unit key satisfying the predicate, and
produce its filtered, deduplicated, sorted annual series ( `[]` when the tag or
unit is missing, signalling `continue`). -/
def annualForTagUnit (facts : CompanyFacts) (tag : String)
    (unitPredicate : String → Bool) : List YearPoint :=
  match lookupTag facts tag with
  | none => []
  | some units =>
    match units.find? fun p => unitPredicate p.1 with
    | none => []
    | some (_, arr) => dedupAndSort (annualFactsOf arr)

/-- `pickAnnualSeriesByUnit` from route.ts: first tag candidate whose annual
series is non-empty wins; an empty result falls through to the next tag. -/
def pickAnnualSeriesByUnit (facts : CompanyFacts) (tagCandidates : List String)
    (unitPredicate : String → Bool) : List YearPoint :=
  match tagCandidates with
  | [] => []
  | tag :: rest =>
    let annual := annualForTagUnit facts tag unitPredicate
    if annual.isEmpty then pickAnnualSeriesByUnit facts rest unitPredicate else annual

/-- `facts?.facts?.["us-gaap"]?.[tag]?.units?.["USD"]`, defaulting to the empty
array when absent (the source `continue`s / skips in that case). -/
def usdArr (facts : CompanyFacts) (tag : String) : List RawFact :=
  ((lookupTag facts tag).bind fun units => lookupUnit units "USD").getD []

/-- `mergeAnnualUSDSeries` from route.ts: union the qualifying annual facts of
ALL tag candidates (in order), then deduplicate by period-end and sort. -/
def mergeAnnualUSDSeries (facts : CompanyFacts) (tagCandidates : List String) :
    List YearPoint :=
  dedupAndSort ((tagCandidates.map fun tag => annualFactsOf (usdArr facts tag)).flatten)

/-- The candidate collection used by the nearest-date pickers in route.ts: keep
facts with a string `end` and a finite `val`, no other filtering. -/
def simpleCandidatesOf (arr : List RawFact) : List YearPoint :=
  arr.filterMap fun x =>
    match x.end_, x.val with
    | some e, some v => some ⟨e, v⟩
    | _, _ => none

/-- Decimal value of a digit list. -/
def digitsToNat (l : List Char) : ℕ := l.foldl (fun n c => n * 10 + (c.toNat - 48)) 0

/-- `Number(s.replaceAll("-", ""))` from route.ts, on the strings at hand:
remove all hyphens and read the remainder as a decimal number.  An empty
remainder is `0` (JavaScript `Number("") === 0`); a remainder with non-digit
characters yields `NaN`, modelled as `none`.  (Other exotic numeric syntaxes
accepted by `Number` — signs, decimals, exponents — do not occur in period-end
strings and are modelled as `none` too.) -/
def encodeNum (s : String) : Option ℕ :=
  let t := s.data.filter (· != '-')
  if t.all Char.isDigit then some (digitsToNat t) else none

/-- `|Number(a.replaceAll("-","")) - Number(b.replaceAll("-",""))|` — the crude
YYYYMMDD-encoded distance used by `pickDebtNearestToEndDate` and
`pickNearestUSDValue`; `none` models a `NaN` difference. -/
def encDist (a b : String) : Option ℕ :=
  match encodeNum a, encodeNum b with
  | some x, some y => some ((x : ℤ) - (y : ℤ)).natAbs
  | _, _ => none

/-- Gregorian leap year. -/
def isLeap (y : ℕ) : Bool := (y % 4 == 0 && y % 100 != 0) || y % 400 == 0

/-- Days in a month (for month `1..12`). -/
def daysInMonth (y m : ℕ) : ℕ :=
  if m = 2 then (if isLeap y then 29 else 28)
  else if m = 4 ∨ m = 6 ∨ m = 9 ∨ m = 11 then 30
  else 31

/-- Validating parse of an ISO `YYYY-MM-DD` date string, the shape for which
`new Date(iso + "T00:00:00Z")` yields a valid UTC midnight timestamp (out-of-range
month/day components give an invalid date, i.e. `NaN`, modelled as `none`). -/
def parseYMD (s : String) : Option (ℕ × ℕ × ℕ) :=
  match s.data with
  | [y1, y2, y3, y4, '-', m1, m2, '-', d1, d2] =>
    if y1.isDigit && y2.isDigit && y3.isDigit && y4.isDigit &&
        m1.isDigit && m2.isDigit && d1.isDigit && d2.isDigit then
      let y := digitsToNat [y1, y2, y3, y4]
      let m := digitsToNat [m1, m2]
      let d := digitsToNat [d1, d2]
      if 1 ≤ m && m ≤ 12 && 1 ≤ d && d ≤ daysInMonth y m then some (y, m, d) else none
    else none
  | _ => none

/-- Days since 1970-01-01 of a Gregorian date (the standard civil-from-days
inverse); equals `Date.UTC(y, m-1, d) / 86400000`. -/
def daysFromCivil (y m d : ℕ) : ℤ :=
  let yi : ℤ := if m ≤ 2 then (y : ℤ) - 1 else (y : ℤ)
  let era : ℤ := (if 0 ≤ yi then yi else yi - 399) / 400
  let yoe : ℤ := yi - era * 400
  let mp : ℕ := (m + 9) % 12
  let doy : ℤ := (153 * (mp : ℤ) + 2) / 5 + (d : ℤ) - 1
  let doe : ℤ := yoe * 365 + yoe / 4 - yoe / 100 + doy
  era * 146097 + doe - 719468

/-- `daysBetween` from route.ts: absolute difference in true calendar days
between two ISO dates (the source divides the UTC-timestamp difference by
86 400 000 ms and rounds; on valid dates the division is exact).  An unparseable
date gives `NaN`, modelled as `none`. -/
def daysBetween (a b : String) : Option ℕ :=
  match parseYMD a, parseYMD b with
  | some (y1, m1, d1), some (y2, m2, d2) =>
      some (daysFromCivil y1 m1 d1 - daysFromCivil y2 m2 d2).natAbs
  | _, _ => none

/-- The shared best/bestDiff selection loop of the three nearest-date pickers in
route.ts (each spells it out inline):  iterate over the candidates keeping the
first candidate whose distance is strictly smaller than the best so far.  A
`none` distance models `NaN`, for which `diff < bestDiff` is false, so the
candidate is skipped. -/
def nearestLoop (dist : String → Option ℕ) :
    List YearPoint → Option (YearPoint × ℕ) → Option (YearPoint × ℕ)
  | [], best => best
  | c :: rest, best =>
    match dist c.end_ with
    | none => nearestLoop dist rest best
    | some d =>
      match best with
      | none => nearestLoop dist rest (some (c, d))
      | some (b, bd) =>
        if d < bd then nearestLoop dist rest (some (c, d))
        else nearestLoop dist rest (some (b, bd))

/-- The candidate array built by `pickDebtNearestToEndDate` (both `tryTag`
calls, in order). -/
def collectDebt (facts : CompanyFacts) : List YearPoint :=
  simpleCandidatesOf (usdArr facts "LongTermDebtNoncurrent") ++
    simpleCandidatesOf (usdArr facts "LongTermDebt")

/-- `pickDebtNearestToEndDate` from route.ts.  Note: no tolerance check at all —
the nearest candidate by encoded distance is returned no matter how far away. -/
def pickDebtNearestToEndDate (facts : CompanyFacts) (endDate : String) : Option ℚ :=
  let candidates := collectDebt facts
  if candidates.isEmpty then none
  else
    match nearestLoop (fun e => encDist e endDate) candidates none with
    | some (b, _) => some b.val
    | none => none

/-- The candidate array built by `pickNearestUSDValue` (all tag candidates, in
order). -/
def collectUSDCandidates (facts : CompanyFacts) (tagCandidates : List String) :
    List YearPoint :=
  (tagCandidates.map fun tag => simpleCandidatesOf (usdArr facts tag)).flatten

/-- `pickNearestUSDValue` from route.ts: nearest candidate by the encoded
YYYYMMDD distance, rejected when that encoded distance exceeds `maxDays * 10`. -/
def pickNearestUSDValue (facts : CompanyFacts) (tagCandidates : List String)
    (endDate : String) (maxDays : ℕ) : Option ℚ :=
  let candidates := collectUSDCandidates facts tagCandidates
  if candidates.isEmpty then none
  else
    match nearestLoop (fun e => encDist e endDate) candidates none with
    | none => none
    | some (b, bd) => if bd > maxDays * 10 then none else some b.val

/-- ASCII lower-casing of one character (`toLowerCase` on the ASCII unit keys in
play). -/
def charToLower (c : Char) : Char :=
  if 'A' ≤ c && c ≤ 'Z' then Char.ofNat (c.toNat + 32) else c

/-- Tag lookup plus `Object.keys(unitsObj).find(k => k.toLowerCase() === "shares")`
from `pickSharesNearestToEndDate`. -/
def sharesArr (facts : CompanyFacts) (tag : String) : List RawFact :=
  match lookupTag facts tag with
  | none => []
  | some units =>
    match units.find? fun p => p.1.data.map charToLower == "shares".data with
    | none => []
    | some (_, arr) => arr

/-- The candidate array built by `pickSharesNearestToEndDate` (both share tags,
in order). -/
def collectShares (facts : CompanyFacts) : List YearPoint :=
  simpleCandidatesOf (sharesArr facts "CommonStockSharesOutstanding") ++
    simpleCandidatesOf (sharesArr facts "EntityCommonStockSharesOutstanding")

/-- `pickSharesNearestToEndDate` from route.ts: nearest candidate by true
calendar-day distance, rejected when farther than 180 days. -/
def pickSharesNearestToEndDate (facts : CompanyFacts) (endDate : String) : Option ℚ :=
  let candidates := collectShares facts
  if candidates.isEmpty then none
  else
    match nearestLoop (fun e => daysBetween e endDate) candidates none with
    | none => none
    | some (b, bd) => if bd > 180 then none else some b.val

/-- `DailyClose` from route.ts. -/
structure DailyClose where
  date : String
  close : ℚ
deriving DecidableEq, Inhabited

/-- The `while (lo <= hi)` loop of `closeOnOrBefore` from route.ts.
`(lo + hi) / 2` is floor division exactly as `Math.floor((lo + hi) / 2)`
(the Lean `ℤ` division is floor division for the positive divisor 2).
`history[mid]` is modelled with a default for out-of-range indices; the loop
only ever probes indices within `[0, history.length)` when started with
`lo = 0, hi = length - 1`. -/
def bsearchLoop (history : List DailyClose) (q : String) (lo hi ans : ℤ) : ℤ :=
  if lo ≤ hi then
    let mid := (lo + hi) / 2
    let e := history.getD mid.toNat default
    if strLeB e.date.data q.data then bsearchLoop history q (mid + 1) hi mid
    else bsearchLoop history q lo (mid - 1) ans
  else ans
termination_by (hi + 1 - lo).toNat
decreasing_by
  all_goals simp_wf
  all_goals omega

/-- `closeOnOrBefore` from route.ts: binary search for the last entry with
`date <= isoDate`. -/
def closeOnOrBefore (history : List DailyClose) (isoDate : String) : Option ℚ :=
  let ans := bsearchLoop history isoDate 0 ((history.length : ℤ) - 1) (-1)
  if 0 ≤ ans then some (history.getD ans.toNat default).close else none

end Financials

namespace Rule1

/-- Test fixture: a six-point EPS series with a duplicated period-end
(`2017-12-31` appears twice), all values 1, already in ascending order. -/
def ex1eps : List SeriesPoint :=
  [⟨"2015-12-31", 1⟩, ⟨"2016-12-31", 1⟩, ⟨"2017-12-31", 1⟩,
   ⟨"2017-12-31", 1⟩, ⟨"2018-12-31", 1⟩, ⟨"2019-12-31", 1⟩]

/-- Test fixture: inputs with the duplicated-end EPS series and a historic P/E
of 2. -/
def ex1Inputs : Rule1Inputs := ⟨ex1eps, [], [], some 2, none⟩

/-- Test fixture: a 10-year horizon, zero analyst growth, zero desired return, a
150 % margin of safety, and the 5-year EPS growth basis. -/
def ex1Knobs : Rule1Knobs := ⟨10, 0, 0, 150, .eps_5y⟩

/-- The result `calculateRule1 ex1Inputs ex1Knobs` evaluates to. -/
noncomputable def ex1Result : Rule1Result :=
  { latestEps := 1
    basis :=
      { key := .eps_5y, label := "EPS last 5 years", pointsUsed := 6, yearsActual := 4
        startEnd := "2015-12-31", endEnd := "2019-12-31", startVal := 1, endVal := 1
        growth := 0 }
    chosenGrowth := 0
    historicPeUsed := 2
    futureValue := 2
    stickerPrice := 2
    stickerPriceWithMOS := 0
    currentPrice := none }

/-- Test fixture: a nine-point EPS series (2011–2019), all values 1. -/
def ex9eps : List SeriesPoint :=
  [⟨"2011-12-31", 1⟩, ⟨"2012-12-31", 1⟩, ⟨"2013-12-31", 1⟩, ⟨"2014-12-31", 1⟩,
   ⟨"2015-12-31", 1⟩, ⟨"2016-12-31", 1⟩, ⟨"2017-12-31", 1⟩, ⟨"2018-12-31", 1⟩,
   ⟨"2019-12-31", 1⟩]

/-- Test fixture: inputs with the nine-point EPS series. -/
def ex9Inputs : Rule1Inputs := ⟨ex9eps, [], [], some 2, none⟩

/-- Test fixture: a ten-point EPS series (2010–2019), all values 1. -/
def ex10eps : List SeriesPoint :=
  ⟨"2010-12-31", 1⟩ :: ex9eps

/-- Test fixture: inputs with the ten-point EPS series. -/
def ex10Inputs : Rule1Inputs := ⟨ex10eps, [], [], some 2, none⟩

/-- Test fixture: knobs selecting the 10-year EPS basis. -/
def exKnobs10y : Rule1Knobs := ⟨10, 0, 0, 50, .eps_10y⟩

end Rule1

namespace Financials

/-- Test fixture: two share-count facts equidistant (5 days) from 2020-06-15,
with the later-dated one listed first. -/
def exTieFacts : CompanyFacts :=
  ⟨[("CommonStockSharesOutstanding",
     [("shares",
       [⟨some "2020-06-20", some 5, none, none, none⟩,
        ⟨some "2020-06-10", some 7, none, none, none⟩])])]⟩

/-- Test fixture: a single long-term-debt fact dated three decades before the
target date. -/
def exFarFacts : CompanyFacts :=
  ⟨[("LongTermDebt", [("USD", [⟨some "1990-01-01", some 42, none, none, none⟩])])]⟩

/-- Test fixture: two long-term-debt facts around 2021-01-01; the 2021-01-05 one
is nearer in the numeric YYYYMMDD encoding, the 2020-12-31 one nearer in true
calendar days. -/
def exSkewFacts : CompanyFacts :=
  ⟨[("LongTermDebt",
     [("USD",
       [⟨some "2021-01-05", some 1, none, none, none⟩,
        ⟨some "2020-12-31", some 2, none, none, none⟩])])]⟩

/-- A raw fact that passes every annual-series filter: 10-K form, FY period, no
frame. -/
def annualFact (e : String) (v : ℚ) : RawFact := ⟨some e, some v, some "10-K", some "FY", none⟩

/-- Facts holding exactly two qualifying annual facts under one tag and the USD
unit, sharing whatever period-end is supplied. -/
def pairFacts (tag e : String) (a b : ℚ) : CompanyFacts :=
  ⟨[(tag, [("USD", [annualFact e a, annualFact e b])])]⟩

/-- Test fixture: a three-entry daily-close history, ascending by date. -/
def exHistory : List DailyClose :=
  [⟨"2020-01-01", 1⟩, ⟨"2020-01-03", 2⟩, ⟨"2020-01-07", 3⟩]

end Financials
theorem strLtB_irrefl : ∀ l : List Char, strLtB l l = false := by
  intro l
  induction l with
  | nil => rfl
  | cons a as ih => simp [strLtB, ih]

theorem strLtB_asymm : ∀ {a b : List Char}, strLtB a b = true → strLtB b a = false := by
  intro a
  induction a with
  | nil => intro b h; cases b <;> simp [strLtB] at *
  | cons x xs ih =>
    intro b h
    cases b with
    | nil => simp [strLtB] at h
    | cons y ys =>
      simp only [strLtB] at h ⊢
      rcases lt_trichotomy x y with hxy | hxy | hxy
      · simp [hxy, not_lt_of_gt hxy]
      · subst hxy
        simp only [lt_irrefl, if_false] at h ⊢
        exact ih h
      · simp [hxy, not_lt_of_gt hxy] at h

theorem strLtB_trans : ∀ {a b c : List Char},
    strLtB a b = true → strLtB b c = true → strLtB a c = true := by
  intro a
  induction a with
  | nil =>
    intro b c hab hbc
    cases b with
    | nil => simp [strLtB] at hab
    | cons y ys =>
      cases c with
      | nil => simp [strLtB] at hbc
      | cons z zs => simp [strLtB]
  | cons x xs ih =>
    intro b c hab hbc
    cases b with
    | nil => simp [strLtB] at hab
    | cons y ys =>
      cases c with
      | nil => simp [strLtB] at hbc
      | cons z zs =>
        simp only [strLtB] at hab hbc ⊢
        rcases lt_trichotomy x y with hxy | hxy | hxy
        · rcases lt_trichotomy y z with hyz | hyz | hyz
          · simp [lt_trans hxy hyz]
          · subst hyz; simp [hxy]
          · simp [hyz, not_lt_of_gt hyz] at hbc
        · subst hxy
          rcases lt_trichotomy x z with hyz | hyz | hyz
          · simp [hyz]
          · subst hyz
            simp only [lt_irrefl, if_false] at hab hbc ⊢
            exact ih hab hbc
          · simp [hyz, not_lt_of_gt hyz] at hbc
        · simp [hxy, not_lt_of_gt hxy] at hab

theorem strLtB_connex : ∀ {a b : List Char},
    strLtB a b = false → strLtB b a = false → a = b := by
  intro a
  induction a with
  | nil => intro b h _; cases b <;> simp [strLtB] at *
  | cons x xs ih =>
    intro b hab hba
    cases b with
    | nil => simp [strLtB] at hba
    | cons y ys =>
      simp only [strLtB] at hab hba
      rcases lt_trichotomy x y with hxy | hxy | hxy
      · simp [hxy] at hab
      · subst hxy
        simp only [lt_irrefl, if_false] at hab hba
        exact congrArg (x :: ·) (ih hab hba)
      · simp [hxy] at hba

theorem strLeB_total (a b : List Char) : strLeB a b = true ∨ strLeB b a = true := by
  unfold strLeB
  rcases h : strLtB b a with _ | _
  · left; rfl
  · right; simp [strLtB_asymm h]

theorem strLeB_trans {a b c : List Char}
    (hab : strLeB a b = true) (hbc : strLeB b c = true) : strLeB a c = true := by
  unfold strLeB at *
  simp only [Bool.not_eq_true'] at hab hbc ⊢
  by_contra h
  rw [Bool.not_eq_false] at h
  rcases hab2 : strLtB a b with _ | _
  · have : a = b := strLtB_connex hab2 hab
    subst this
    simp [h] at hbc
  · have : strLtB c b = true := strLtB_trans h hab2
    simp [this] at hbc

theorem strLeB_of_strLtB {a b : List Char} (h : strLtB a b = true) : strLeB a b = true := by
  simp [strLeB, strLtB_asymm h]

theorem strLtB_or_eq_of_strLeB {a b : List Char} (h : strLeB a b = true) :
    strLtB a b = true ∨ a = b := by
  unfold strLeB at h
  simp only [Bool.not_eq_true'] at h
  rcases hab : strLtB a b with _ | _
  · exact Or.inr (strLtB_connex hab h)
  · exact Or.inl rfl

theorem strLeB_refl (l : List Char) : strLeB l l = true := by
  simp [strLeB, strLtB_irrefl]

section SortByKey

variable {α : Type} (key : α → String)

theorem sortByKey_sorted (l : List α) :
    List.Sorted (fun a b => strLeB (key a).data (key b).data = true)
      (l.insertionSort fun a b => strLeB (key a).data (key b).data = true) := by
  haveI : IsTotal α fun a b => strLeB (key a).data (key b).data = true :=
    ⟨fun a b => strLeB_total _ _⟩
  haveI : IsTrans α fun a b => strLeB (key a).data (key b).data = true :=
    ⟨fun _ _ _ => strLeB_trans⟩
  exact List.sorted_insertionSort _ l

theorem sortByKey_perm (l : List α) :
    (l.insertionSort fun a b => strLeB (key a).data (key b).data = true).Perm l :=
  List.perm_insertionSort _ l

theorem sortByKey_length (l : List α) :
    (l.insertionSort fun a b => strLeB (key a).data (key b).data = true).length = l.length :=
  (sortByKey_perm key l).length_eq

theorem sortByKey_eq_self_of_sorted {l : List α}
    (h : List.Sorted (fun a b => strLeB (key a).data (key b).data = true) l) :
    (l.insertionSort fun a b => strLeB (key a).data (key b).data = true) = l :=
  List.Sorted.insertionSort_eq h

theorem pairwise_lt_of_sorted_nodup {l : List α}
    (hs : List.Sorted (fun a b => strLeB (key a).data (key b).data = true) l)
    (hn : (l.map key).Nodup) :
    List.Pairwise (fun a b => strLtB (key a).data (key b).data = true) l := by
  induction l with
  | nil => exact List.Pairwise.nil
  | cons a t ih =>
    rw [List.sorted_cons] at hs
    simp only [List.map_cons, List.nodup_cons] at hn
    refine List.Pairwise.cons (fun b hb => ?_) (ih hs.2 hn.2)
    rcases strLtB_or_eq_of_strLeB (hs.1 b hb) with h | h
    · exact h
    · exact absurd (List.mem_map_of_mem key hb)
        (by
          have : key a = key b := String.toList_inj.mp h
          rw [← this] at *
          exact hn.1)

end SortByKey

namespace Rule1

theorem normalizeSeries_sorted (l : List SeriesPoint) :
    List.Sorted (fun a b => strLeB a.end_.data b.end_.data = true) (normalizeSeries l) :=
  sortByKey_sorted SeriesPoint.end_ l

theorem normalizeSeries_perm (l : List SeriesPoint) : (normalizeSeries l).Perm l :=
  sortByKey_perm SeriesPoint.end_ l

theorem normalizeSeries_length (l : List SeriesPoint) :
    (normalizeSeries l).length = l.length :=
  sortByKey_length SeriesPoint.end_ l

theorem normalizeSeries_idem (l : List SeriesPoint) :
    normalizeSeries (normalizeSeries l) = normalizeSeries l :=
  sortByKey_eq_self_of_sorted SeriesPoint.end_ (normalizeSeries_sorted l)

theorem normalizeSeries_eq_nil_iff (l : List SeriesPoint) :
    normalizeSeries l = [] ↔ l = [] := by
  constructor
  · intro h
    have := normalizeSeries_length l
    rw [h] at this
    exact List.length_eq_zero.mp this.symm
  · intro h
    subst h
    rfl

theorem pointsNeededForBasis_pos (b : GrowthBasis) : 0 < pointsNeededForBasis b := by
  cases b <;> decide

theorem computeGrowthByPoints_none_iff (series : List SeriesPoint) (points : ℕ)
    (hp : 0 < points) :
    computeGrowthByPoints series points = none ↔
      (normalizeSeries series).length < points := by
  simp only [computeGrowthByPoints]
  split
  next h =>
    simp only [true_iff]
    omega
  next h =>
    simp only [reduceCtorEq, false_iff, not_lt]
    omega

theorem computeGrowthByPoints_some_spec (series : List SeriesPoint) (points : ℕ)
    (g : GrowthOut) (h : computeGrowthByPoints series points = some g) :
    points ≤ (normalizeSeries series).length ∧ 0 < points ∧
      (normalizeSeries series)[(normalizeSeries series).length - points]? = some g.start ∧
      (normalizeSeries series).getLast? = some g.end_ ∧
      g.yearsActual = max 1 (yearOf g.end_.end_ - yearOf g.start.end_) ∧
      g.growth = cagr g.start.val g.end_.val (g.yearsActual : ℝ) := by
  simp only [computeGrowthByPoints] at h
  split at h
  next hc => exact absurd h (by simp)
  next hc =>
    have hlen : points ≤ (normalizeSeries series).length := by omega
    have hppos : 0 < points := by omega
    have hpos : 0 < (normalizeSeries series).length := by omega
    injection h with h
    subst h
    refine ⟨hlen, hppos, ?_, ?_, rfl, rfl⟩
    · simp [List.getElem?_eq_getElem, List.get_eq_getElem]
    · rw [List.getLast?_eq_getElem?]
      simp [List.getElem?_eq_getElem, List.get_eq_getElem]

end Rule1

namespace Rule1

theorem calculateRule1_none_iff (inputs : Rule1Inputs) (knobs : Rule1Knobs) :
    calculateRule1 inputs knobs = none ↔
      inputs.eps = [] ∨ inputs.historicPeRatio = none ∨
        ∃ pe, inputs.historicPeRatio = some pe ∧ pe ≤ 0 := by
  cases hL : (normalizeSeries inputs.eps).getLast? with
  | none =>
    have he : inputs.eps = [] :=
      (normalizeSeries_eq_nil_iff _).mp (List.getLast?_eq_none_iff.mp hL)
    simp only [calculateRule1, hL]
    simp [he]
  | some lastP =>
    have he : inputs.eps ≠ [] := by
      intro h
      rw [h] at hL
      simp [normalizeSeries] at hL
    cases hpe : inputs.historicPeRatio with
    | none =>
      simp only [calculateRule1, hL, hpe]
      simp [he]
    | some pe =>
      by_cases hp : pe ≤ 0
      · simp only [calculateRule1, hL, hpe]
        simp [hp, he]
      · cases hg : computeGrowthByPoints
            (normalizeSeries (basisSeriesOf inputs knobs.growthBasis))
            (pointsNeededForBasis knobs.growthBasis) with
        | none =>
          simp only [calculateRule1, hL, hpe, hg]
          simp [hp, he]
        | some g =>
          simp only [calculateRule1, hL, hpe, hg]
          simp [hp, he]

theorem calculateRule1_failure_iff (inputs : Rule1Inputs) (knobs : Rule1Knobs) :
    (∃ f, calculateRule1 inputs knobs = some (Sum.inr f)) ↔
      inputs.eps ≠ [] ∧ (∃ pe, inputs.historicPeRatio = some pe ∧ 0 < pe) ∧
        (normalizeSeries (basisSeriesOf inputs knobs.growthBasis)).length <
          pointsNeededForBasis knobs.growthBasis := by
  cases hL : (normalizeSeries inputs.eps).getLast? with
  | none =>
    have he : inputs.eps = [] :=
      (normalizeSeries_eq_nil_iff _).mp (List.getLast?_eq_none_iff.mp hL)
    simp only [calculateRule1, hL]
    simp [he]
  | some lastP =>
    have he : inputs.eps ≠ [] := by
      intro h
      rw [h] at hL
      simp [normalizeSeries] at hL
    cases hpe : inputs.historicPeRatio with
    | none =>
      simp only [calculateRule1, hL, hpe]
      simp [he]
    | some pe =>
      by_cases hp : pe ≤ 0
      · simp only [calculateRule1, hL, hpe]
        simp [hp, he, not_lt_of_le hp]
      · cases hg : computeGrowthByPoints
            (normalizeSeries (basisSeriesOf inputs knobs.growthBasis))
            (pointsNeededForBasis knobs.growthBasis) with
        | none =>
          have hlen := (computeGrowthByPoints_none_iff _ _
            (pointsNeededForBasis_pos knobs.growthBasis)).mp hg
          rw [normalizeSeries_length] at hlen
          simp only [calculateRule1, hL, hpe, hg]
          simp [hp, he, hlen, lt_of_not_le hp]
        | some g =>
          have hlen : ¬ (normalizeSeries (basisSeriesOf inputs knobs.growthBasis)).length <
              pointsNeededForBasis knobs.growthBasis := by
            intro hc
            rw [← normalizeSeries_length (normalizeSeries (basisSeriesOf inputs knobs.growthBasis))] at hc
            rw [(computeGrowthByPoints_none_iff _ _
              (pointsNeededForBasis_pos knobs.growthBasis)).mpr hc] at hg
            exact Option.noConfusion hg
          simp only [calculateRule1, hL, hpe, hg]
          simp [hp, he, hlen]

theorem calculateRule1_result_iff (inputs : Rule1Inputs) (knobs : Rule1Knobs) :
    (∃ r, calculateRule1 inputs knobs = some (Sum.inl r)) ↔
      inputs.eps ≠ [] ∧ (∃ pe, inputs.historicPeRatio = some pe ∧ 0 < pe) ∧
        pointsNeededForBasis knobs.growthBasis ≤
          (normalizeSeries (basisSeriesOf inputs knobs.growthBasis)).length := by
  cases hL : (normalizeSeries inputs.eps).getLast? with
  | none =>
    have he : inputs.eps = [] :=
      (normalizeSeries_eq_nil_iff _).mp (List.getLast?_eq_none_iff.mp hL)
    simp only [calculateRule1, hL]
    simp [he]
  | some lastP =>
    have he : inputs.eps ≠ [] := by
      intro h
      rw [h] at hL
      simp [normalizeSeries] at hL
    cases hpe : inputs.historicPeRatio with
    | none =>
      simp only [calculateRule1, hL, hpe]
      simp [he]
    | some pe =>
      by_cases hp : pe ≤ 0
      · simp only [calculateRule1, hL, hpe]
        simp [hp, he, not_lt_of_le hp]
      · cases hg : computeGrowthByPoints
            (normalizeSeries (basisSeriesOf inputs knobs.growthBasis))
            (pointsNeededForBasis knobs.growthBasis) with
        | none =>
          have hlen := (computeGrowthByPoints_none_iff _ _
            (pointsNeededForBasis_pos knobs.growthBasis)).mp hg
          rw [normalizeSeries_length] at hlen
          simp only [calculateRule1, hL, hpe, hg]
          simp [hp, he, not_le_of_lt hlen, lt_of_not_le hp]
        | some g =>
          have hlen : pointsNeededForBasis knobs.growthBasis ≤
              (normalizeSeries (basisSeriesOf inputs knobs.growthBasis)).length := by
            by_contra hc
            rw [not_le, ← normalizeSeries_length
              (normalizeSeries (basisSeriesOf inputs knobs.growthBasis))] at hc
            rw [(computeGrowthByPoints_none_iff _ _
              (pointsNeededForBasis_pos knobs.growthBasis)).mpr hc] at hg
            exact Option.noConfusion hg
          simp only [calculateRule1, hL, hpe, hg]
          simp [hp, he, hlen, lt_of_not_le hp]

end Rule1

namespace Rule1

theorem calculateRule1_failure_spec (inputs : Rule1Inputs) (knobs : Rule1Knobs)
    (f : Rule1Failure) (h : calculateRule1 inputs knobs = some (Sum.inr f)) :
    f.growthBasis = knobs.growthBasis ∧
      f.pointsNeeded = pointsNeededForBasis knobs.growthBasis ∧
      f.pointsAvailable = (normalizeSeries (basisSeriesOf inputs knobs.growthBasis)).length ∧
      f.pointsAvailable < f.pointsNeeded := by
  cases hL : (normalizeSeries inputs.eps).getLast? with
  | none => simp only [calculateRule1, hL, reduceCtorEq] at h
  | some lastP =>
    cases hpe : inputs.historicPeRatio with
    | none => simp only [calculateRule1, hL, hpe, reduceCtorEq] at h
    | some pe =>
      by_cases hp : pe ≤ 0
      · simp only [calculateRule1, hL, hpe, if_pos hp, reduceCtorEq] at h
      · cases hg : computeGrowthByPoints
            (normalizeSeries (basisSeriesOf inputs knobs.growthBasis))
            (pointsNeededForBasis knobs.growthBasis) with
        | none =>
          have hlen := (computeGrowthByPoints_none_iff _ _
            (pointsNeededForBasis_pos knobs.growthBasis)).mp hg
          rw [normalizeSeries_length] at hlen
          simp only [calculateRule1, hL, hpe, if_neg hp, hg, Option.some.injEq] at h
          have hf := h.symm
          injection hf with hf
          subst hf
          exact ⟨rfl, rfl, rfl, hlen⟩
        | some g =>
          simp only [calculateRule1, hL, hpe, if_neg hp, hg, Option.some.injEq,
            reduceCtorEq] at h

theorem calculateRule1_result_spec (inputs : Rule1Inputs) (knobs : Rule1Knobs)
    (r : Rule1Result) (h : calculateRule1 inputs knobs = some (Sum.inl r)) :
    ∃ pe lastP g,
      inputs.historicPeRatio = some pe ∧ 0 < pe ∧
      (normalizeSeries inputs.eps).getLast? = some lastP ∧
      computeGrowthByPoints (normalizeSeries (basisSeriesOf inputs knobs.growthBasis))
        (pointsNeededForBasis knobs.growthBasis) = some g ∧
      r = { latestEps := lastP.val
            basis :=
              { key := knobs.growthBasis
                label := growthBasisLabel knobs.growthBasis
                pointsUsed := pointsNeededForBasis knobs.growthBasis
                yearsActual := g.yearsActual
                startEnd := g.start.end_
                endEnd := g.end_.end_
                startVal := g.start.val
                endVal := g.end_.val
                growth := g.growth }
            chosenGrowth := min knobs.analystGrowth g.growth
            historicPeUsed := pe
            futureValue := lastP.val * pe * (1 + min knobs.analystGrowth g.growth) ^ knobs.years
            stickerPrice := lastP.val * pe * (1 + min knobs.analystGrowth g.growth) ^ knobs.years /
              (1 + knobs.desiredReturn) ^ knobs.years
            stickerPriceWithMOS :=
              lastP.val * pe * (1 + min knobs.analystGrowth g.growth) ^ knobs.years /
                (1 + knobs.desiredReturn) ^ knobs.years *
                max 0 (min 1 ((100 - knobs.marginOfSafetyPercent) / 100))
            currentPrice := inputs.latestPriceUSD } := by
  cases hL : (normalizeSeries inputs.eps).getLast? with
  | none => simp only [calculateRule1, hL, reduceCtorEq] at h
  | some lastP =>
    cases hpe : inputs.historicPeRatio with
    | none => simp only [calculateRule1, hL, hpe, reduceCtorEq] at h
    | some pe =>
      by_cases hp : pe ≤ 0
      · simp only [calculateRule1, hL, hpe, if_pos hp, reduceCtorEq] at h
      · cases hg : computeGrowthByPoints
            (normalizeSeries (basisSeriesOf inputs knobs.growthBasis))
            (pointsNeededForBasis knobs.growthBasis) with
        | none =>
          simp only [calculateRule1, hL, hpe, if_neg hp, hg, Option.some.injEq,
            reduceCtorEq] at h
        | some g =>
          simp only [calculateRule1, hL, hpe, if_neg hp, hg, Option.some.injEq] at h
          have hr := h.symm
          injection hr with hr
          exact ⟨pe, lastP, g, rfl, lt_of_not_le hp, rfl, rfl, hr⟩

end Rule1

namespace Rule1

theorem ex1_eval : calculateRule1 ex1Inputs ex1Knobs = some (Sum.inl ex1Result) := by
  have hL : (normalizeSeries ex1Inputs.eps).getLast? = some ⟨"2019-12-31", 1⟩ := rfl
  have hg : computeGrowthByPoints (normalizeSeries (basisSeriesOf ex1Inputs ex1Knobs.growthBasis))
      (pointsNeededForBasis ex1Knobs.growthBasis) =
      some ⟨⟨"2015-12-31", 1⟩, ⟨"2019-12-31", 1⟩, 4, cagr 1 1 ((4 : ℤ) : ℝ)⟩ := rfl
  have hpe : ex1Inputs.historicPeRatio = some 2 := rfl
  have hcagr : cagr 1 1 ((4 : ℤ) : ℝ) = 0 := by
    have h4 : ((4 : ℤ) : ℝ) = 4 := by norm_num
    rw [cagr, h4]
    norm_num [Real.one_rpow]
  simp only [calculateRule1, hL, hpe, hg]
  rw [if_neg (by norm_num : ¬(2:ℝ) ≤ 0)]
  simp only [Option.some.injEq, ex1Result, ex1Knobs, ex1Inputs, hcagr,
    Sum.inl.injEq, Rule1Result.mk.injEq, BasisDetail.mk.injEq]
  norm_num [Real.one_rpow, growthBasisLabel, pointsNeededForBasis]

end Rule1

/-- C1: for all inputs and knobs, `calculateRule1` returns exactly one of three
outcomes (the `Option (Sum ..)` return type makes a mix impossible by
construction): `none` exactly when the EPS series is empty or the historic P/E
is missing or non-positive; a Failure — carrying the basis key, the
pointsNeeded of the basis (6 for every 5-year basis, 10 for every 10-year
basis) and pointsAvailable — exactly when the normalized basis series has fewer
than pointsNeeded points; and a Result exactly otherwise.  In particular a
10-point basis with only 9 points available yields a Failure with
pointsNeeded = 10, pointsAvailable = 9, while exactly 10 points yields a
Result. -/
theorem claim1_outcome_trichotomy :
    (∀ (inputs : Rule1.Rule1Inputs) (knobs : Rule1.Rule1Knobs),
      (Rule1.calculateRule1 inputs knobs = none ↔
        inputs.eps = [] ∨ inputs.historicPeRatio = none ∨
          ∃ pe, inputs.historicPeRatio = some pe ∧ pe ≤ 0) ∧
      ((∃ f, Rule1.calculateRule1 inputs knobs = some (Sum.inr f)) ↔
        inputs.eps ≠ [] ∧ (∃ pe, inputs.historicPeRatio = some pe ∧ 0 < pe) ∧
          (Rule1.normalizeSeries (Rule1.basisSeriesOf inputs knobs.growthBasis)).length <
            Rule1.pointsNeededForBasis knobs.growthBasis) ∧
      (∀ f, Rule1.calculateRule1 inputs knobs = some (Sum.inr f) →
        f.growthBasis = knobs.growthBasis ∧
        f.pointsNeeded = Rule1.pointsNeededForBasis knobs.growthBasis ∧
        f.pointsAvailable =
          (Rule1.normalizeSeries (Rule1.basisSeriesOf inputs knobs.growthBasis)).length ∧
        f.pointsAvailable < f.pointsNeeded) ∧
      ((∃ r, Rule1.calculateRule1 inputs knobs = some (Sum.inl r)) ↔
        inputs.eps ≠ [] ∧ (∃ pe, inputs.historicPeRatio = some pe ∧ 0 < pe) ∧
          Rule1.pointsNeededForBasis knobs.growthBasis ≤
            (Rule1.normalizeSeries (Rule1.basisSeriesOf inputs knobs.growthBasis)).length)) ∧
    (Rule1.pointsNeededForBasis .bvps_5y = 6 ∧ Rule1.pointsNeededForBasis .fcf_5y = 6 ∧
      Rule1.pointsNeededForBasis .eps_5y = 6 ∧ Rule1.pointsNeededForBasis .bvps_10y = 10 ∧
      Rule1.pointsNeededForBasis .fcf_10y = 10 ∧ Rule1.pointsNeededForBasis .eps_10y = 10) ∧
    (∃ f, Rule1.calculateRule1 Rule1.ex9Inputs Rule1.exKnobs10y = some (Sum.inr f) ∧
      f.pointsNeeded = 10 ∧ f.pointsAvailable = 9) ∧
    (∃ r, Rule1.calculateRule1 Rule1.ex10Inputs Rule1.exKnobs10y = some (Sum.inl r)) := by
  refine ⟨fun inputs knobs =>
      ⟨Rule1.calculateRule1_none_iff inputs knobs,
       Rule1.calculateRule1_failure_iff inputs knobs,
       fun f h => Rule1.calculateRule1_failure_spec inputs knobs f h,
       Rule1.calculateRule1_result_iff inputs knobs⟩,
    ⟨rfl, rfl, rfl, rfl, rfl, rfl⟩, ?_, ?_⟩
  · obtain ⟨f, hf⟩ := (Rule1.calculateRule1_failure_iff Rule1.ex9Inputs Rule1.exKnobs10y).mpr
      ⟨by simp [Rule1.ex9Inputs, Rule1.ex9eps], ⟨2, rfl, by norm_num⟩,
        by rw [Rule1.normalizeSeries_length]; decide⟩
    have hfields := Rule1.calculateRule1_failure_spec Rule1.ex9Inputs Rule1.exKnobs10y f hf
    refine ⟨f, hf, ?_, ?_⟩
    · rw [hfields.2.1]; rfl
    · rw [hfields.2.2.1, Rule1.normalizeSeries_length]; rfl
  · exact (Rule1.calculateRule1_result_iff Rule1.ex10Inputs Rule1.exKnobs10y).mpr
      ⟨by simp [Rule1.ex10Inputs, Rule1.ex10eps], ⟨2, rfl, by norm_num⟩,
        by rw [Rule1.normalizeSeries_length]; decide⟩

/-- C3: the chosen growth of every Result returned by `calculateRule1` is
exactly the minimum of the analyst-supplied growth and the computed basis
growth, hence is at most each of them. -/
theorem claim3_chosen_growth_min (inputs : Rule1.Rule1Inputs) (knobs : Rule1.Rule1Knobs)
    (r : Rule1.Rule1Result)
    (h : Rule1.calculateRule1 inputs knobs = some (Sum.inl r)) :
    r.chosenGrowth = min knobs.analystGrowth r.basis.growth ∧
      r.chosenGrowth ≤ knobs.analystGrowth ∧ r.chosenGrowth ≤ r.basis.growth := by
  obtain ⟨pe, lastP, g, -, -, -, -, hr⟩ := Rule1.calculateRule1_result_spec inputs knobs r h
  subst hr
  exact ⟨rfl, min_le_left _ _, min_le_right _ _⟩

/-- Witness for C3 at the concrete input `ex1Inputs`/`ex1Knobs`. -/
theorem claim3_chosen_growth_min_witness :
    Rule1.ex1Result.chosenGrowth =
        min Rule1.ex1Knobs.analystGrowth Rule1.ex1Result.basis.growth ∧
      Rule1.ex1Result.chosenGrowth ≤ Rule1.ex1Knobs.analystGrowth ∧
      Rule1.ex1Result.chosenGrowth ≤ Rule1.ex1Result.basis.growth :=
  claim3_chosen_growth_min Rule1.ex1Inputs Rule1.ex1Knobs Rule1.ex1Result Rule1.ex1_eval

/-- C4: every Result returned by `calculateRule1` satisfies the pricing
formulas: futureValue = latestEps × historicPE × (1 + chosenGrowth)^years,
stickerPrice = futureValue / (1 + desiredReturn)^years, and
stickerPriceWithMOS = stickerPrice × clamp((100 − marginOfSafetyPercent)/100, 0, 1);
for marginOfSafetyPercent = 150 the clamped factor is 0 and the
margin-of-safety price is 0, not negative. -/
theorem claim4_pricing_formulas (inputs : Rule1.Rule1Inputs) (knobs : Rule1.Rule1Knobs)
    (r : Rule1.Rule1Result)
    (h : Rule1.calculateRule1 inputs knobs = some (Sum.inl r)) :
    r.futureValue = r.latestEps * r.historicPeUsed * (1 + r.chosenGrowth) ^ knobs.years ∧
      r.stickerPrice = r.futureValue / (1 + knobs.desiredReturn) ^ knobs.years ∧
      r.stickerPriceWithMOS =
        r.stickerPrice * max 0 (min 1 ((100 - knobs.marginOfSafetyPercent) / 100)) ∧
      (knobs.marginOfSafetyPercent = 150 →
        max 0 (min 1 ((100 - knobs.marginOfSafetyPercent) / 100)) = 0 ∧
          r.stickerPriceWithMOS = 0) := by
  obtain ⟨pe, lastP, g, -, -, -, -, hr⟩ := Rule1.calculateRule1_result_spec inputs knobs r h
  subst hr
  refine ⟨rfl, rfl, rfl, fun h150 => ?_⟩
  have hfac : max 0 (min 1 ((100 - knobs.marginOfSafetyPercent) / 100)) = (0:ℝ) := by
    rw [h150]
    have hq : ((100:ℝ) - 150) / 100 = -(1/2) := by norm_num
    rw [hq, min_eq_right (by norm_num : -(1/2:ℝ) ≤ 1), max_eq_left (by norm_num : -(1/2:ℝ) ≤ 0)]
  exact ⟨hfac, by rw [hfac, mul_zero]⟩

/-- Witness for C4 at the concrete input `ex1Inputs`/`ex1Knobs` (whose margin of
safety is exactly 150, exercising the clamp-to-zero case). -/
theorem claim4_pricing_formulas_witness :
    Rule1.ex1Result.futureValue =
        Rule1.ex1Result.latestEps * Rule1.ex1Result.historicPeUsed *
          (1 + Rule1.ex1Result.chosenGrowth) ^ Rule1.ex1Knobs.years ∧
      Rule1.ex1Result.stickerPrice =
        Rule1.ex1Result.futureValue / (1 + Rule1.ex1Knobs.desiredReturn) ^ Rule1.ex1Knobs.years ∧
      Rule1.ex1Result.stickerPriceWithMOS =
        Rule1.ex1Result.stickerPrice *
          max 0 (min 1 ((100 - Rule1.ex1Knobs.marginOfSafetyPercent) / 100)) ∧
      (Rule1.ex1Knobs.marginOfSafetyPercent = 150 →
        max 0 (min 1 ((100 - Rule1.ex1Knobs.marginOfSafetyPercent) / 100)) = 0 ∧
          Rule1.ex1Result.stickerPriceWithMOS = 0) :=
  claim4_pricing_formulas Rule1.ex1Inputs Rule1.ex1Knobs Rule1.ex1Result Rule1.ex1_eval

/-- C10: `normalizeSeries` inside the valuation engine sorts but never
deduplicates (it preserves length on every input), so the concrete EPS series
`ex1eps`, which has 6 points but only 5 distinct period-end dates, counts 6
points toward `pointsAvailable`, meets the 6-point requirement of the 5-year
EPS basis, and produces a Result. -/
theorem claim10_no_dedup_in_rule1 :
    (∀ s, (Rule1.normalizeSeries s).length = s.length) ∧
      (Rule1.ex1Inputs.eps.map Rule1.SeriesPoint.end_).dedup.length = 5 ∧
      Rule1.ex1Inputs.eps.length = 6 ∧
      Rule1.pointsNeededForBasis Rule1.ex1Knobs.growthBasis = 6 ∧
      (Rule1.normalizeSeries Rule1.ex1Inputs.eps).length = 6 ∧
      (∃ r, Rule1.calculateRule1 Rule1.ex1Inputs Rule1.ex1Knobs = some (Sum.inl r)) :=
  ⟨Rule1.normalizeSeries_length, by decide, rfl, rfl,
    by rw [Rule1.normalizeSeries_length]; rfl, ⟨Rule1.ex1Result, Rule1.ex1_eval⟩⟩

/-- C2: for every basis whose normalized ascending series has at least
pointsNeeded points, the Result of `calculateRule1` takes as start the point
exactly pointsNeeded positions from the end, as end the last point, actual
years = max(1, end.year − start.year) (always ≥ 1), and growth =
(end.value / start.value)^(1/actualYears) − 1 when both endpoint values are
strictly positive, and 0 otherwise.  In particular start 100 and end 200 five
years apart give growth = 2^(1/5) − 1 ≈ 0.1487 (between 0.1486 and 0.1488). -/
theorem claim2_growth_window_and_cagr :
    (∀ (inputs : Rule1.Rule1Inputs) (knobs : Rule1.Rule1Knobs) (r : Rule1.Rule1Result),
      Rule1.calculateRule1 inputs knobs = some (Sum.inl r) →
      ∃ pstart pend,
        (Rule1.normalizeSeries (Rule1.basisSeriesOf inputs knobs.growthBasis))[
          (Rule1.normalizeSeries (Rule1.basisSeriesOf inputs knobs.growthBasis)).length -
            Rule1.pointsNeededForBasis knobs.growthBasis]? = some pstart ∧
        (Rule1.normalizeSeries (Rule1.basisSeriesOf inputs knobs.growthBasis)).getLast? =
          some pend ∧
        r.basis.startEnd = pstart.end_ ∧ r.basis.endEnd = pend.end_ ∧
        r.basis.startVal = pstart.val ∧ r.basis.endVal = pend.val ∧
        r.basis.yearsActual = max 1 (Rule1.yearOf pend.end_ - Rule1.yearOf pstart.end_) ∧
        (1:ℤ) ≤ r.basis.yearsActual ∧
        ((0 < pstart.val ∧ 0 < pend.val) →
          r.basis.growth = (pend.val / pstart.val) ^ (1 / (r.basis.yearsActual : ℝ)) - 1) ∧
        (¬(0 < pstart.val ∧ 0 < pend.val) → r.basis.growth = 0)) ∧
    Rule1.cagr 100 200 5 = (2:ℝ) ^ ((1:ℝ)/5) - 1 ∧
    0.1486 < Rule1.cagr 100 200 5 ∧ Rule1.cagr 100 200 5 < 0.1488 := by
  have hx5 : ((2:ℝ) ^ ((1:ℝ)/5)) ^ (5:ℕ) = 2 := by
    rw [← Real.rpow_natCast ((2:ℝ) ^ ((1:ℝ)/5)) 5, ← Real.rpow_mul (by norm_num : (0:ℝ) ≤ 2)]
    norm_num
  have hxpos : (0:ℝ) < (2:ℝ) ^ ((1:ℝ)/5) := Real.rpow_pos_of_pos (by norm_num) _
  have hlo : (1.1486 : ℝ) < (2:ℝ) ^ ((1:ℝ)/5) := by
    by_contra hc
    push_neg at hc
    have := pow_le_pow_left₀ (le_of_lt hxpos) hc 5
    rw [hx5] at this
    norm_num at this
  have hhi : (2:ℝ) ^ ((1:ℝ)/5) < 1.1488 := by
    by_contra hc
    push_neg at hc
    have := pow_le_pow_left₀ (by norm_num : (0:ℝ) ≤ 1.1488) hc 5
    rw [hx5] at this
    norm_num at this
  have hcagr : Rule1.cagr 100 200 5 = (2:ℝ) ^ ((1:ℝ)/5) - 1 := by
    rw [Rule1.cagr, if_neg (by norm_num), if_neg (by norm_num)]
    norm_num
  refine ⟨?_, hcagr, by rw [hcagr]; linarith, by rw [hcagr]; linarith⟩
  intro inputs knobs r h
  obtain ⟨pe, lastP, g, hpe, hpepos, hL, hg, hr⟩ :=
    Rule1.calculateRule1_result_spec inputs knobs r h
  obtain ⟨hlen, hppos, hstart, hlast, hya, hgrowth⟩ :=
    Rule1.computeGrowthByPoints_some_spec _ _ _ hg
  rw [Rule1.normalizeSeries_idem] at hstart hlast
  subst hr
  have hya1 : (1:ℤ) ≤ g.yearsActual := by rw [hya]; exact le_max_left _ _
  refine ⟨g.start, g.end_, hstart, hlast, rfl, rfl, rfl, rfl, hya, hya1, ?_, ?_⟩
  · intro hpos2
    show g.growth = _
    rw [hgrowth, Rule1.cagr,
      if_neg (not_le_of_lt (by exact_mod_cast lt_of_lt_of_le zero_lt_one hya1)),
      if_neg (by push_neg; exact ⟨hpos2.1, hpos2.2⟩)]
  · intro hneg
    show g.growth = 0
    rw [hgrowth, Rule1.cagr]
    rw [if_neg (not_le_of_lt (by exact_mod_cast lt_of_lt_of_le zero_lt_one hya1))]
    rw [if_pos ?_]
    push_neg at hneg
    by_cases hs : 0 < g.start.val
    · exact Or.inr (le_of_not_lt (fun hc => absurd (hneg hs) (not_le_of_lt hc)))
    · exact Or.inl (le_of_not_lt hs)

/-- Witness for C2 at the concrete input `ex1Inputs`/`ex1Knobs`. -/
theorem claim2_growth_window_witness :
    ∃ pstart pend,
      (Rule1.normalizeSeries (Rule1.basisSeriesOf Rule1.ex1Inputs Rule1.ex1Knobs.growthBasis))[
        (Rule1.normalizeSeries
            (Rule1.basisSeriesOf Rule1.ex1Inputs Rule1.ex1Knobs.growthBasis)).length -
          Rule1.pointsNeededForBasis Rule1.ex1Knobs.growthBasis]? = some pstart ∧
      (Rule1.normalizeSeries
          (Rule1.basisSeriesOf Rule1.ex1Inputs Rule1.ex1Knobs.growthBasis)).getLast? =
        some pend ∧
      Rule1.ex1Result.basis.startEnd = pstart.end_ ∧
      Rule1.ex1Result.basis.endEnd = pend.end_ ∧
      Rule1.ex1Result.basis.startVal = pstart.val ∧
      Rule1.ex1Result.basis.endVal = pend.val ∧
      Rule1.ex1Result.basis.yearsActual =
        max 1 (Rule1.yearOf pend.end_ - Rule1.yearOf pstart.end_) ∧
      (1:ℤ) ≤ Rule1.ex1Result.basis.yearsActual ∧
      ((0 < pstart.val ∧ 0 < pend.val) →
        Rule1.ex1Result.basis.growth =
          (pend.val / pstart.val) ^ (1 / (Rule1.ex1Result.basis.yearsActual : ℝ)) - 1) ∧
      (¬(0 < pstart.val ∧ 0 < pend.val) → Rule1.ex1Result.basis.growth = 0) :=
  claim2_growth_window_and_cagr.1 Rule1.ex1Inputs Rule1.ex1Knobs Rule1.ex1Result Rule1.ex1_eval

namespace Financials

theorem annualForTagUnit_cases (facts : CompanyFacts) (tag : String)
    (pred : String → Bool) :
    annualForTagUnit facts tag pred = [] ∨
      ∃ arr, annualForTagUnit facts tag pred = dedupAndSort (annualFactsOf arr) := by
  rcases hL : lookupTag facts tag with _ | units
  · exact Or.inl (by simp [annualForTagUnit, hL])
  · rcases hF : units.find? fun p => pred p.1 with _ | p
    · exact Or.inl (by simp [annualForTagUnit, hL, hF])
    · obtain ⟨u, arr⟩ := p
      exact Or.inr ⟨arr, by simp [annualForTagUnit, hL, hF]⟩

theorem pickAnnual_first_match (facts : CompanyFacts) (pred : String → Bool) :
    ∀ tags : List String,
    (pickAnnualSeriesByUnit facts tags pred = [] ∧
      ∀ t ∈ tags, annualForTagUnit facts t pred = []) ∨
    ∃ pre t post, tags = pre ++ t :: post ∧
      (∀ t2 ∈ pre, annualForTagUnit facts t2 pred = []) ∧
      annualForTagUnit facts t pred ≠ [] ∧
      pickAnnualSeriesByUnit facts tags pred = annualForTagUnit facts t pred := by
  intro tags
  induction tags with
  | nil => exact Or.inl ⟨rfl, by simp⟩
  | cons tag rest ih =>
    by_cases h : annualForTagUnit facts tag pred = []
    · have hstep : pickAnnualSeriesByUnit facts (tag :: rest) pred =
          pickAnnualSeriesByUnit facts rest pred := by
        simp [pickAnnualSeriesByUnit, h]
      rcases ih with ⟨hres, hall⟩ | ⟨pre, t, post, heq, hpre, hne, hres⟩
      · refine Or.inl ⟨by rw [hstep, hres], fun t ht => ?_⟩
        rcases List.mem_cons.mp ht with rfl | ht2
        · exact h
        · exact hall t ht2
      · refine Or.inr ⟨tag :: pre, t, post, by rw [heq]; rfl, fun t2 ht2 => ?_, hne,
          by rw [hstep, hres]⟩
        rcases List.mem_cons.mp ht2 with rfl | h2
        · exact h
        · exact hpre _ h2
    · have hstep : pickAnnualSeriesByUnit facts (tag :: rest) pred =
          annualForTagUnit facts tag pred := by
        have : (annualForTagUnit facts tag pred).isEmpty = false := by
          cases hc : annualForTagUnit facts tag pred with
          | nil => exact absurd hc h
          | cons a t => rfl
        simp [pickAnnualSeriesByUnit, this]
      exact Or.inr ⟨[], tag, rest, rfl, by simp, h, hstep⟩

theorem updateByEnd_fst (e : String) (v : ℚ) :
    ∀ m : List (String × ℚ),
    (updateByEnd m e v).map Prod.fst =
      if e ∈ m.map Prod.fst then m.map Prod.fst else m.map Prod.fst ++ [e] := by
  intro m
  induction m with
  | nil => simp [updateByEnd]
  | cons p rest ih =>
    obtain ⟨e1, v1⟩ := p
    by_cases he : e1 = e
    · subst he
      simp [updateByEnd]
    · simp only [updateByEnd, if_neg he, List.map_cons, List.mem_cons, ih]
      have hne : ¬ e = e1 := fun hc => he hc.symm
      by_cases hm : e ∈ rest.map Prod.fst
      · simp [hm, hne]
      · simp [hm, hne]

theorem dedupByEnd_fst_nodup (l : List YearPoint) :
    ((dedupByEnd l).map Prod.fst).Nodup := by
  suffices h : ∀ m : List (String × ℚ), (m.map Prod.fst).Nodup →
      ((l.foldl (fun m p => updateByEnd m p.end_ p.val) m).map Prod.fst).Nodup by
    exact h [] List.nodup_nil
  induction l with
  | nil => intro m hm; exact hm
  | cons p rest ih =>
    intro m hm
    refine ih (updateByEnd m p.end_ p.val) ?_
    rw [updateByEnd_fst]
    by_cases hmem : p.end_ ∈ m.map Prod.fst
    · simpa [hmem] using hm
    · simp [hmem, List.nodup_append, hm]

theorem dedupAndSort_sorted (l : List YearPoint) :
    List.Sorted (fun a b : YearPoint => strLeB a.end_.data b.end_.data = true)
      (dedupAndSort l) :=
  sortByKey_sorted YearPoint.end_ _

theorem dedupAndSort_ends_nodup (l : List YearPoint) :
    ((dedupAndSort l).map YearPoint.end_).Nodup := by
  have hperm : (dedupAndSort l).Perm ((dedupByEnd l).map fun p => ⟨p.1, p.2⟩) :=
    sortByKey_perm YearPoint.end_ _
  have hmap : (((dedupByEnd l).map fun p => (⟨p.1, p.2⟩ : YearPoint)).map
      YearPoint.end_) = (dedupByEnd l).map Prod.fst := by
    rw [List.map_map]
    rfl
  exact ((hperm.map YearPoint.end_).nodup_iff).mpr (hmap ▸ dedupByEnd_fst_nodup l)

theorem dedupAndSort_pairwise_lt (l : List YearPoint) :
    List.Pairwise (fun a b : YearPoint => strLtB a.end_.data b.end_.data = true)
      (dedupAndSort l) :=
  pairwise_lt_of_sorted_nodup YearPoint.end_ (dedupAndSort_sorted l)
    (dedupAndSort_ends_nodup l)

end Financials

/-- C7: every annual series produced by normalization — by
`pickAnnualSeriesByUnit` (first-match variant) and by `mergeAnnualUSDSeries`
(merge-across-tags variant) — is strictly increasing by period-end and has at
most one point per period-end (no duplicate `end` keys).  Only finite values
occur by construction of the embedding: the qualifying filter admits a point
only when `Number.isFinite(x.val)` holds, i.e. only when `val` carries a
number. -/
theorem claim7_normalized_series_invariants
    (facts : Financials.CompanyFacts) (tags : List String) (pred : String → Bool) :
    List.Pairwise (fun p q : Financials.YearPoint => strLtB p.end_.data q.end_.data = true)
      (Financials.pickAnnualSeriesByUnit facts tags pred) ∧
    ((Financials.pickAnnualSeriesByUnit facts tags pred).map Financials.YearPoint.end_).Nodup ∧
    List.Pairwise (fun p q : Financials.YearPoint => strLtB p.end_.data q.end_.data = true)
      (Financials.mergeAnnualUSDSeries facts tags) ∧
    ((Financials.mergeAnnualUSDSeries facts tags).map Financials.YearPoint.end_).Nodup := by
  have hpick : Financials.pickAnnualSeriesByUnit facts tags pred = [] ∨
      ∃ arr, Financials.pickAnnualSeriesByUnit facts tags pred =
        Financials.dedupAndSort (Financials.annualFactsOf arr) := by
    rcases Financials.pickAnnual_first_match facts pred tags with ⟨h, -⟩ | ⟨-, t, -, -, -, -, h⟩
    · exact Or.inl h
    · rcases Financials.annualForTagUnit_cases facts t pred with h2 | ⟨arr, h2⟩
      · exact Or.inl (h.trans h2)
      · exact Or.inr ⟨arr, h.trans h2⟩
  have hmerge : Financials.mergeAnnualUSDSeries facts tags =
      Financials.dedupAndSort ((tags.map fun tag =>
        Financials.annualFactsOf (Financials.usdArr facts tag)).flatten) := rfl
  refine ⟨?_, ?_, ?_, ?_⟩
  · rcases hpick with h | ⟨arr, h⟩
    · rw [h]; exact List.Pairwise.nil
    · rw [h]; exact Financials.dedupAndSort_pairwise_lt _
  · rcases hpick with h | ⟨arr, h⟩
    · rw [h]; exact List.nodup_nil
    · rw [h]; exact Financials.dedupAndSort_ends_nodup _
  · rw [hmerge]; exact Financials.dedupAndSort_pairwise_lt _
  · rw [hmerge]; exact Financials.dedupAndSort_ends_nodup _

/-- C8: `pickAnnualSeriesByUnit` consults the tag candidates in list order and
returns the series of the first tag whose qualifying annual series is
non-empty, never merging facts of later tags; when no tag/unit combination
yields a qualifying fact it returns the empty series (and, being a total
function, it never throws). -/
theorem claim8_first_tag_wins (facts : Financials.CompanyFacts) (tags : List String)
    (pred : String → Bool) :
    (Financials.pickAnnualSeriesByUnit facts tags pred = [] ∧
      ∀ t ∈ tags, Financials.annualForTagUnit facts t pred = []) ∨
    ∃ pre t post, tags = pre ++ t :: post ∧
      (∀ t2 ∈ pre, Financials.annualForTagUnit facts t2 pred = []) ∧
      Financials.annualForTagUnit facts t pred ≠ [] ∧
      Financials.pickAnnualSeriesByUnit facts tags pred =
        Financials.annualForTagUnit facts t pred :=
  Financials.pickAnnual_first_match facts pred tags

/-- C6: when exactly two qualifying raw facts (annual 10-K/FY facts under the
same tag and the USD unit) share the same period-end, normalization keeps the
one whose value has the larger absolute value, whichever order the two facts
are filed in; the normalized series contains exactly that one point. -/
theorem claim6_dedup_keeps_larger_abs (tag e : String) (a b : ℚ) (h : |a| < |b|) :
    Financials.pickAnnualSeriesByUnit (Financials.pairFacts tag e a b) [tag]
        (fun u => u == "USD") = [⟨e, b⟩] ∧
      Financials.pickAnnualSeriesByUnit (Financials.pairFacts tag e b a) [tag]
        (fun u => u == "USD") = [⟨e, b⟩] := by
  constructor
  · have h1 : |b| > |a| := h
    simp [Financials.pickAnnualSeriesByUnit, Financials.annualForTagUnit,
      Financials.lookupTag, Financials.pairFacts, Financials.annualFactsOf,
      Financials.annualFact, Financials.frameLooksQuarterly, Financials.dedupAndSort,
      Financials.dedupByEnd, Financials.updateByEnd, Financials.sortYearPoints, h1]
  · have h2 : ¬ (|a| > |b|) := not_lt.mpr (le_of_lt h)
    simp [Financials.pickAnnualSeriesByUnit, Financials.annualForTagUnit,
      Financials.lookupTag, Financials.pairFacts, Financials.annualFactsOf,
      Financials.annualFact, Financials.frameLooksQuarterly, Financials.dedupAndSort,
      Financials.dedupByEnd, Financials.updateByEnd, Financials.sortYearPoints, h2]

/-- Witness for C6 at the spec's concrete pair: facts (2020-12-31, 100) and
(2020-12-31, −150) normalize to exactly the point (2020-12-31, −150). -/
theorem claim6_dedup_witness :
    Financials.pickAnnualSeriesByUnit
        (Financials.pairFacts "Revenues" "2020-12-31" 100 (-150)) ["Revenues"]
        (fun u => u == "USD") = [⟨"2020-12-31", -150⟩] ∧
      Financials.pickAnnualSeriesByUnit
        (Financials.pairFacts "Revenues" "2020-12-31" (-150) 100) ["Revenues"]
        (fun u => u == "USD") = [⟨"2020-12-31", -150⟩] :=
  claim6_dedup_keeps_larger_abs "Revenues" "2020-12-31" 100 (-150) (by decide)

namespace Financials

theorem nearestLoop_none_iff (dist : String → Option ℕ) :
    ∀ (cs : List YearPoint) (best : Option (YearPoint × ℕ)),
    nearestLoop dist cs best = none ↔ best = none ∧ ∀ c ∈ cs, dist c.end_ = none := by
  intro cs
  induction cs with
  | nil => intro best; simp [nearestLoop]
  | cons x rest ih =>
    intro best
    cases hd : dist x.end_ with
    | none =>
      simp only [nearestLoop, hd]
      rw [ih]
      simp [List.forall_mem_cons, hd]
    | some d =>
      cases best with
      | none =>
        simp only [nearestLoop, hd]
        rw [ih]
        simp [List.forall_mem_cons, hd]
      | some p =>
        obtain ⟨bb, bd⟩ := p
        simp only [nearestLoop, hd]
        by_cases hlt : d < bd
        · rw [if_pos hlt, ih]
          simp [List.forall_mem_cons, hd]
        · rw [if_neg hlt, ih]
          simp [List.forall_mem_cons, hd]

theorem nearestLoop_some_spec (dist : String → Option ℕ) :
    ∀ (cs : List YearPoint) (best : Option (YearPoint × ℕ)) (c : YearPoint) (d : ℕ),
    nearestLoop dist cs best = some (c, d) →
    (best = some (c, d) ∧ ∀ b ∈ cs, ∀ db, dist b.end_ = some db → d ≤ db) ∨
    (∃ pre post, cs = pre ++ c :: post ∧ dist c.end_ = some d ∧
      (∀ p, best = some p → d < p.2) ∧
      (∀ b ∈ pre, ∀ db, dist b.end_ = some db → d < db) ∧
      (∀ b ∈ post, ∀ db, dist b.end_ = some db → d ≤ db)) := by
  intro cs
  induction cs with
  | nil =>
    intro best c d h
    simp only [nearestLoop] at h
    exact Or.inl ⟨h, by simp⟩
  | cons x rest ih =>
    intro best c d h
    cases hd : dist x.end_ with
    | none =>
      simp only [nearestLoop, hd] at h
      rcases ih best c d h with ⟨hb, hall⟩ | ⟨pre, post, heq, hdc, hbest, hpre, hpost⟩
      · refine Or.inl ⟨hb, fun b hb2 db hdb => ?_⟩
        rcases List.mem_cons.mp hb2 with rfl | h2
        · rw [hd] at hdb; exact absurd hdb (by simp)
        · exact hall b h2 db hdb
      · refine Or.inr ⟨x :: pre, post, by rw [heq]; rfl, hdc, hbest,
          fun b hb2 db hdb => ?_, hpost⟩
        rcases List.mem_cons.mp hb2 with rfl | h2
        · rw [hd] at hdb; exact absurd hdb (by simp)
        · exact hpre b h2 db hdb
    | some dx =>
      cases best with
      | none =>
        simp only [nearestLoop, hd] at h
        rcases ih (some (x, dx)) c d h with ⟨hb, hall⟩ |
            ⟨pre, post, heq, hdc, hbest, hpre, hpost⟩
        · injection hb with hb
          obtain ⟨rfl, rfl⟩ : x = c ∧ dx = d :=
            ⟨congrArg Prod.fst hb, congrArg Prod.snd hb⟩
          refine Or.inr ⟨[], rest, rfl, hd, fun p hp => absurd hp (by simp), by simp, hall⟩
        · refine Or.inr ⟨x :: pre, post, by rw [heq]; rfl, hdc,
            fun p hp => absurd hp (by simp), fun b hb2 db hdb => ?_, hpost⟩
          rcases List.mem_cons.mp hb2 with rfl | h2
          · have hxd := hbest (b, dx) rfl
            rw [hd] at hdb
            injection hdb with hdb
            exact hdb ▸ hxd
          · exact hpre b h2 db hdb
      | some p =>
        obtain ⟨bb, bd⟩ := p
        simp only [nearestLoop, hd] at h
        by_cases hlt : dx < bd
        · rw [if_pos hlt] at h
          rcases ih (some (x, dx)) c d h with ⟨hb, hall⟩ |
              ⟨pre, post, heq, hdc, hbest, hpre, hpost⟩
          · injection hb with hb
            obtain ⟨rfl, rfl⟩ : x = c ∧ dx = d :=
              ⟨congrArg Prod.fst hb, congrArg Prod.snd hb⟩
            refine Or.inr ⟨[], rest, rfl, hd, fun p hp => ?_, by simp, hall⟩
            · injection hp with hp
              rw [← hp]
              exact hlt
          · refine Or.inr ⟨x :: pre, post, by rw [heq]; rfl, hdc, fun p hp => ?_,
              fun b hb2 db hdb => ?_, hpost⟩
            · injection hp with hp
              rw [← hp]
              exact lt_trans (hbest (x, dx) rfl) hlt
            · rcases List.mem_cons.mp hb2 with rfl | h2
              · rw [hd] at hdb
                injection hdb with hdb
                exact hdb ▸ hbest (b, dx) rfl
              · exact hpre b h2 db hdb
        · rw [if_neg hlt] at h
          push_neg at hlt
          rcases ih (some (bb, bd)) c d h with ⟨hb, hall⟩ |
              ⟨pre, post, heq, hdc, hbest, hpre, hpost⟩
          · refine Or.inl ⟨hb, fun b hb2 db hdb => ?_⟩
            rcases List.mem_cons.mp hb2 with rfl | h2
            · rw [hd] at hdb
              injection hdb with hdb
              injection hb with hb
              have hbd : bd = d := congrArg Prod.snd hb
              rw [← hdb, ← hbd]
              exact hlt
            · exact hall b h2 db hdb
          · refine Or.inr ⟨x :: pre, post, by rw [heq]; rfl, hdc, hbest,
              fun b hb2 db hdb => ?_, hpost⟩
            rcases List.mem_cons.mp hb2 with rfl | h2
            · rw [hd] at hdb
              injection hdb with hdb
              rw [← hdb]
              exact lt_of_lt_of_le (hbest (bb, bd) rfl) hlt
            · exact hpre b h2 db hdb

theorem nearestLoop_firstMin (dist : String → Option ℕ) (cs : List YearPoint)
    (c : YearPoint) (d : ℕ) (h : nearestLoop dist cs none = some (c, d)) :
    ∃ pre post, cs = pre ++ c :: post ∧ dist c.end_ = some d ∧
      (∀ b ∈ pre, ∀ db, dist b.end_ = some db → d < db) ∧
      (∀ b ∈ post, ∀ db, dist b.end_ = some db → d ≤ db) := by
  rcases nearestLoop_some_spec dist cs none c d h with ⟨hb, -⟩ |
      ⟨pre, post, heq, hdc, -, hpre, hpost⟩
  · exact absurd hb (by simp)
  · exact ⟨pre, post, heq, hdc, hpre, hpost⟩

theorem nearestLoop_globalMin (dist : String → Option ℕ) (cs : List YearPoint)
    (c : YearPoint) (d : ℕ) (h : nearestLoop dist cs none = some (c, d)) :
    c ∈ cs ∧ dist c.end_ = some d ∧
      ∀ b ∈ cs, ∀ db, dist b.end_ = some db → d ≤ db := by
  obtain ⟨pre, post, heq, hdc, hpre, hpost⟩ := nearestLoop_firstMin dist cs c d h
  subst heq
  refine ⟨List.mem_append.mpr (Or.inr (List.mem_cons_self _ _)), hdc, fun b hb db hdb => ?_⟩
  rcases List.mem_append.mp hb with h1 | h2
  · exact le_of_lt (hpre b h1 db hdb)
  · rcases List.mem_cons.mp h2 with rfl | h3
    · rw [hdc] at hdb
      injection hdb with hdb
      rw [hdb]
    · exact hpost b h3 db hdb

end Financials

namespace Financials

theorem pickShares_spec (facts : CompanyFacts) (endDate : String) :
    (∀ v, pickSharesNearestToEndDate facts endDate = some v →
      ∃ c d pre post, collectShares facts = pre ++ c :: post ∧ v = c.val ∧
        daysBetween c.end_ endDate = some d ∧ d ≤ 180 ∧
        (∀ b ∈ pre, ∀ db, daysBetween b.end_ endDate = some db → d < db) ∧
        (∀ b ∈ post, ∀ db, daysBetween b.end_ endDate = some db → d ≤ db)) ∧
    (pickSharesNearestToEndDate facts endDate = none →
      (∀ c ∈ collectShares facts, daysBetween c.end_ endDate = none) ∨
      ∃ c d, c ∈ collectShares facts ∧ daysBetween c.end_ endDate = some d ∧
        (∀ b ∈ collectShares facts, ∀ db, daysBetween b.end_ endDate = some db → d ≤ db) ∧
        180 < d) := by
  constructor
  · intro v hv
    simp only [pickSharesNearestToEndDate] at hv
    by_cases hemp : (collectShares facts).isEmpty
    · rw [if_pos hemp] at hv
      exact absurd hv (by simp)
    · rw [if_neg hemp] at hv
      cases hloop : nearestLoop (fun e => daysBetween e endDate) (collectShares facts) none with
      | none =>
        simp only [hloop] at hv
        exact absurd hv (by simp)
      | some p =>
        obtain ⟨b0, bd⟩ := p
        simp only [hloop] at hv
        by_cases h180 : bd > 180
        · rw [if_pos h180] at hv
          exact absurd hv (by simp)
        · rw [if_neg h180] at hv
          injection hv with hv
          obtain ⟨pre, post, heq, hdc, hpre, hpost⟩ := nearestLoop_firstMin _ _ _ _ hloop
          exact ⟨b0, bd, pre, post, heq, hv.symm, hdc, not_lt.mp h180, hpre, hpost⟩
  · intro hv
    simp only [pickSharesNearestToEndDate] at hv
    by_cases hemp : (collectShares facts).isEmpty
    · left
      have hnil : collectShares facts = [] := by
        cases hcs : collectShares facts with
        | nil => rfl
        | cons a t => rw [hcs] at hemp; simp at hemp
      intro c hc
      rw [hnil] at hc
      exact absurd hc (List.not_mem_nil c)
    · rw [if_neg hemp] at hv
      cases hloop : nearestLoop (fun e => daysBetween e endDate) (collectShares facts) none with
      | none => exact Or.inl ((nearestLoop_none_iff _ _ _).mp hloop).2
      | some p =>
        obtain ⟨b0, bd⟩ := p
        simp only [hloop] at hv
        by_cases h180 : bd > 180
        · obtain ⟨hmem, hdc, hall⟩ := nearestLoop_globalMin _ _ _ _ hloop
          exact Or.inr ⟨b0, bd, hmem, hdc, hall, h180⟩
        · rw [if_neg h180] at hv
          exact absurd hv (by simp)

theorem pickDebt_spec (facts : CompanyFacts) (endDate : String) :
    (∀ v, pickDebtNearestToEndDate facts endDate = some v →
      ∃ c d pre post, collectDebt facts = pre ++ c :: post ∧ v = c.val ∧
        encDist c.end_ endDate = some d ∧
        (∀ b ∈ pre, ∀ db, encDist b.end_ endDate = some db → d < db) ∧
        (∀ b ∈ post, ∀ db, encDist b.end_ endDate = some db → d ≤ db)) ∧
    (pickDebtNearestToEndDate facts endDate = none ↔
      ∀ c ∈ collectDebt facts, encDist c.end_ endDate = none) := by
  constructor
  · intro v hv
    simp only [pickDebtNearestToEndDate] at hv
    by_cases hemp : (collectDebt facts).isEmpty
    · rw [if_pos hemp] at hv
      exact absurd hv (by simp)
    · rw [if_neg hemp] at hv
      cases hloop : nearestLoop (fun e => encDist e endDate) (collectDebt facts) none with
      | none =>
        simp only [hloop] at hv
        exact absurd hv (by simp)
      | some p =>
        obtain ⟨b0, bd⟩ := p
        simp only [hloop] at hv
        injection hv with hv
        obtain ⟨pre, post, heq, hdc, hpre, hpost⟩ := nearestLoop_firstMin _ _ _ _ hloop
        exact ⟨b0, bd, pre, post, heq, hv.symm, hdc, hpre, hpost⟩
  · constructor
    · intro hv
      simp only [pickDebtNearestToEndDate] at hv
      by_cases hemp : (collectDebt facts).isEmpty
      · have hnil : collectDebt facts = [] := by
          cases hcs : collectDebt facts with
          | nil => rfl
          | cons a t => rw [hcs] at hemp; simp at hemp
        intro c hc
        rw [hnil] at hc
        exact absurd hc (List.not_mem_nil c)
      · rw [if_neg hemp] at hv
        cases hloop : nearestLoop (fun e => encDist e endDate) (collectDebt facts) none with
        | none => exact ((nearestLoop_none_iff _ _ _).mp hloop).2
        | some p =>
          obtain ⟨b0, bd⟩ := p
          simp only [hloop] at hv
          exact absurd hv (by simp)
    · intro hall
      simp only [pickDebtNearestToEndDate]
      by_cases hemp : (collectDebt facts).isEmpty
      · rw [if_pos hemp]
      · rw [if_neg hemp, (nearestLoop_none_iff _ _ _).mpr ⟨rfl, hall⟩]

theorem pickNearestUSD_spec (facts : CompanyFacts) (tags : List String)
    (endDate : String) (maxDays : ℕ) :
    (∀ v, pickNearestUSDValue facts tags endDate maxDays = some v →
      ∃ c d pre post, collectUSDCandidates facts tags = pre ++ c :: post ∧ v = c.val ∧
        encDist c.end_ endDate = some d ∧ d ≤ maxDays * 10 ∧
        (∀ b ∈ pre, ∀ db, encDist b.end_ endDate = some db → d < db) ∧
        (∀ b ∈ post, ∀ db, encDist b.end_ endDate = some db → d ≤ db)) ∧
    (pickNearestUSDValue facts tags endDate maxDays = none →
      (∀ c ∈ collectUSDCandidates facts tags, encDist c.end_ endDate = none) ∨
      ∃ c d, c ∈ collectUSDCandidates facts tags ∧ encDist c.end_ endDate = some d ∧
        (∀ b ∈ collectUSDCandidates facts tags, ∀ db,
          encDist b.end_ endDate = some db → d ≤ db) ∧
        maxDays * 10 < d) := by
  constructor
  · intro v hv
    simp only [pickNearestUSDValue] at hv
    by_cases hemp : (collectUSDCandidates facts tags).isEmpty
    · rw [if_pos hemp] at hv
      exact absurd hv (by simp)
    · rw [if_neg hemp] at hv
      cases hloop : nearestLoop (fun e => encDist e endDate)
          (collectUSDCandidates facts tags) none with
      | none =>
        simp only [hloop] at hv
        exact absurd hv (by simp)
      | some p =>
        obtain ⟨b0, bd⟩ := p
        simp only [hloop] at hv
        by_cases hmax : bd > maxDays * 10
        · rw [if_pos hmax] at hv
          exact absurd hv (by simp)
        · rw [if_neg hmax] at hv
          injection hv with hv
          obtain ⟨pre, post, heq, hdc, hpre, hpost⟩ := nearestLoop_firstMin _ _ _ _ hloop
          exact ⟨b0, bd, pre, post, heq, hv.symm, hdc, not_lt.mp hmax, hpre, hpost⟩
  · intro hv
    simp only [pickNearestUSDValue] at hv
    by_cases hemp : (collectUSDCandidates facts tags).isEmpty
    · left
      have hnil : collectUSDCandidates facts tags = [] := by
        cases hcs : collectUSDCandidates facts tags with
        | nil => rfl
        | cons a t => rw [hcs] at hemp; simp at hemp
      intro c hc
      rw [hnil] at hc
      exact absurd hc (List.not_mem_nil c)
    · rw [if_neg hemp] at hv
      cases hloop : nearestLoop (fun e => encDist e endDate)
          (collectUSDCandidates facts tags) none with
      | none => exact Or.inl ((nearestLoop_none_iff _ _ _).mp hloop).2
      | some p =>
        obtain ⟨b0, bd⟩ := p
        simp only [hloop] at hv
        by_cases hmax : bd > maxDays * 10
        · obtain ⟨hmem, hdc, hall⟩ := nearestLoop_globalMin _ _ _ _ hloop
          exact Or.inr ⟨b0, bd, hmem, hdc, hall, hmax⟩
        · rw [if_neg hmax] at hv
          exact absurd hv (by simp)

end Financials

/-- C5 (amended): the shares lookup returns the value of the first-collected
candidate among those minimizing true calendar-day distance to the target and
returns absent when every candidate's distance is `NaN` or the minimum exceeds
180 days; the long-term-debt and equity/cash lookups minimize distance in the
numeric YYYYMMDD encoding (not calendar days), the equity/cash lookup returns
absent when that encoded distance exceeds `maxDays * 10`, and the debt lookup
applies no tolerance at all (absent only when no candidate has a finite encoded
distance).  On exact ties every lookup keeps the first-collected candidate
(tag order, then filing order), not necessarily the earlier-dated one. -/
theorem claim5_nearest_date_amended (facts : Financials.CompanyFacts)
    (tags : List String) (endDate : String) (maxDays : ℕ) :
    ((∀ v, Financials.pickSharesNearestToEndDate facts endDate = some v →
      ∃ c d pre post, Financials.collectShares facts = pre ++ c :: post ∧ v = c.val ∧
        Financials.daysBetween c.end_ endDate = some d ∧ d ≤ 180 ∧
        (∀ b ∈ pre, ∀ db, Financials.daysBetween b.end_ endDate = some db → d < db) ∧
        (∀ b ∈ post, ∀ db, Financials.daysBetween b.end_ endDate = some db → d ≤ db)) ∧
    (Financials.pickSharesNearestToEndDate facts endDate = none →
      (∀ c ∈ Financials.collectShares facts, Financials.daysBetween c.end_ endDate = none) ∨
      ∃ c d, c ∈ Financials.collectShares facts ∧
        Financials.daysBetween c.end_ endDate = some d ∧
        (∀ b ∈ Financials.collectShares facts, ∀ db,
          Financials.daysBetween b.end_ endDate = some db → d ≤ db) ∧
        180 < d)) ∧
    ((∀ v, Financials.pickDebtNearestToEndDate facts endDate = some v →
      ∃ c d pre post, Financials.collectDebt facts = pre ++ c :: post ∧ v = c.val ∧
        Financials.encDist c.end_ endDate = some d ∧
        (∀ b ∈ pre, ∀ db, Financials.encDist b.end_ endDate = some db → d < db) ∧
        (∀ b ∈ post, ∀ db, Financials.encDist b.end_ endDate = some db → d ≤ db)) ∧
    (Financials.pickDebtNearestToEndDate facts endDate = none ↔
      ∀ c ∈ Financials.collectDebt facts, Financials.encDist c.end_ endDate = none)) ∧
    ((∀ v, Financials.pickNearestUSDValue facts tags endDate maxDays = some v →
      ∃ c d pre post, Financials.collectUSDCandidates facts tags = pre ++ c :: post ∧
        v = c.val ∧ Financials.encDist c.end_ endDate = some d ∧ d ≤ maxDays * 10 ∧
        (∀ b ∈ pre, ∀ db, Financials.encDist b.end_ endDate = some db → d < db) ∧
        (∀ b ∈ post, ∀ db, Financials.encDist b.end_ endDate = some db → d ≤ db)) ∧
    (Financials.pickNearestUSDValue facts tags endDate maxDays = none →
      (∀ c ∈ Financials.collectUSDCandidates facts tags,
        Financials.encDist c.end_ endDate = none) ∨
      ∃ c d, c ∈ Financials.collectUSDCandidates facts tags ∧
        Financials.encDist c.end_ endDate = some d ∧
        (∀ b ∈ Financials.collectUSDCandidates facts tags, ∀ db,
          Financials.encDist b.end_ endDate = some db → d ≤ db) ∧
        maxDays * 10 < d)) :=
  ⟨Financials.pickShares_spec facts endDate, Financials.pickDebt_spec facts endDate,
    Financials.pickNearestUSD_spec facts tags endDate maxDays⟩

/-- Counterexample to C5 as stated: (i) two share candidates exactly 5 days from
2020-06-15, later-dated listed first — the lookup returns the later-dated
candidate's value 5, not the earlier-dated candidate's 7; (ii) a debt candidate
11322 days (31 years) from the target is still returned — no tolerance; (iii)
for target 2021-01-01 the debt lookup returns the candidate at 4 true days
(2021-01-05, encoded distance 4) over the candidate at 1 true day (2020-12-31,
encoded distance 8870) — it does not minimize absolute date distance. -/
theorem claim5_counterexample :
    Financials.pickSharesNearestToEndDate Financials.exTieFacts "2020-06-15" = some 5 ∧
    Financials.pickSharesNearestToEndDate Financials.exTieFacts "2020-06-15" ≠ some 7 ∧
    Financials.daysBetween "2020-06-20" "2020-06-15" = some 5 ∧
    Financials.daysBetween "2020-06-10" "2020-06-15" = some 5 ∧
    strLtB "2020-06-10".data "2020-06-20".data = true ∧
    Financials.pickDebtNearestToEndDate Financials.exFarFacts "2020-12-31" = some 42 ∧
    Financials.daysBetween "1990-01-01" "2020-12-31" = some 11322 ∧
    Financials.pickDebtNearestToEndDate Financials.exSkewFacts "2021-01-01" = some 1 ∧
    Financials.pickDebtNearestToEndDate Financials.exSkewFacts "2021-01-01" ≠ some 2 ∧
    Financials.daysBetween "2020-12-31" "2021-01-01" = some 1 ∧
    Financials.daysBetween "2021-01-05" "2021-01-01" = some 4 := by
  decide

namespace Financials

theorem getD_eq_get (history : List DailyClose) (j : ℕ) (hj : j < history.length) :
    history.getD j default = history.get ⟨j, hj⟩ := by
  rw [List.getD_eq_getElem?_getD, List.getElem?_eq_getElem hj]
  rfl

theorem bsearchLoop_spec (history : List DailyClose) (q : String)
    (hs : List.Pairwise (fun a b : DailyClose => strLeB a.date.data b.date.data = true)
      history) :
    ∀ (k : ℕ) (lo hi ans : ℤ),
      (hi + 1 - lo).toNat ≤ k →
      0 ≤ lo → lo ≤ hi + 1 → hi < (history.length : ℤ) →
      (-1) ≤ ans → ans < lo →
      (0 ≤ ans → strLeB (history.getD ans.toNat default).date.data q.data = true) →
      (∀ i : ℕ, (i : ℤ) < lo →
        strLeB (history.getD i default).date.data q.data = true → (i : ℤ) ≤ ans) →
      (∀ i : ℕ, hi < (i : ℤ) → i < history.length →
        ¬ strLeB (history.getD i default).date.data q.data = true) →
      ((-1) ≤ bsearchLoop history q lo hi ans ∧
        bsearchLoop history q lo hi ans < (history.length : ℤ) ∧
        (0 ≤ bsearchLoop history q lo hi ans →
          strLeB (history.getD (bsearchLoop history q lo hi ans).toNat default).date.data
            q.data = true) ∧
        (∀ i : ℕ, i < history.length →
          strLeB (history.getD i default).date.data q.data = true →
          (i : ℤ) ≤ bsearchLoop history q lo hi ans)) := by
  intro k
  induction k with
  | zero =>
    intro lo hi ans hfuel hlo hlohi hhilen hansm1 hanslo hansq hinvlo hinvhi
    have hexit : ¬ lo ≤ hi := by omega
    rw [bsearchLoop, if_neg hexit]
    refine ⟨hansm1, by omega, hansq, fun i hilen hq => ?_⟩
    by_cases hi2 : (i : ℤ) < lo
    · exact hinvlo i hi2 hq
    · exact absurd hq (hinvhi i (by omega) hilen)
  | succ k ih =>
    intro lo hi ans hfuel hlo hlohi hhilen hansm1 hanslo hansq hinvlo hinvhi
    by_cases hexit : lo ≤ hi
    · rw [bsearchLoop, if_pos hexit]
      have hmidlo : lo ≤ (lo + hi) / 2 := by omega
      have hmidhi : (lo + hi) / 2 ≤ hi := by omega
      have hmid0 : 0 ≤ (lo + hi) / 2 := le_trans hlo hmidlo
      have hmidcast : (((lo + hi) / 2).toNat : ℤ) = (lo + hi) / 2 := Int.toNat_of_nonneg hmid0
      have hmidlen : ((lo + hi) / 2).toNat < history.length := by omega
      by_cases hcmp :
          strLeB (history.getD ((lo + hi) / 2).toNat default).date.data q.data = true
      · rw [if_pos hcmp]
        refine ih ((lo + hi) / 2 + 1) hi ((lo + hi) / 2) (by omega) (by omega) (by omega)
          hhilen (by omega) (by omega) (fun _ => hcmp) (fun i hilt hq => by omega) hinvhi
      · rw [if_neg hcmp]
        refine ih lo ((lo + hi) / 2 - 1) ans (by omega) hlo (by omega) (by omega)
          hansm1 hanslo hansq hinvlo (fun i hibig hilen hq => ?_)
        by_cases hup : hi < (i : ℤ)
        · exact hinvhi i hup hilen hq
        · -- (lo+hi)/2 ≤ i ≤ hi : sortedness pushes the failed comparison upward
          have hge : ((lo + hi) / 2).toNat ≤ i := by omega
          rcases Nat.eq_or_lt_of_le hge with heq | hlt2
          · rw [← heq] at hq
            exact hcmp hq
          · have hrel := List.pairwise_iff_getElem.mp hs ((lo + hi) / 2).toNat i
              hmidlen hilen hlt2
            have h1 : history.getD ((lo + hi) / 2).toNat default =
                history.get ⟨((lo + hi) / 2).toNat, hmidlen⟩ := getD_eq_get _ _ _
            have h2 : history.getD i default = history.get ⟨i, hilen⟩ := getD_eq_get _ _ _
            apply hcmp
            rw [h1]
            rw [h2] at hq
            exact strLeB_trans hrel hq
    · rw [bsearchLoop, if_neg hexit]
      refine ⟨hansm1, by omega, hansq, fun i hilen hq => ?_⟩
      by_cases hi2 : (i : ℤ) < lo
      · exact hinvlo i hi2 hq
      · exact absurd hq (hinvhi i (by omega) hilen)

end Financials

/-- C9: for a price history sorted ascending by date, `closeOnOrBefore` returns
the close of the latest entry whose date is ≤ the query date, and returns
absent exactly when no entry's date is ≤ the query date (in particular for an
empty history). -/
theorem claim9_close_on_or_before (history : List Financials.DailyClose) (q : String)
    (hs : List.Pairwise (fun a b : Financials.DailyClose =>
      strLeB a.date.data b.date.data = true) history) :
    (∀ v, Financials.closeOnOrBefore history q = some v →
      ∃ i, ∃ h : i < history.length,
        strLeB (history.get ⟨i, h⟩).date.data q.data = true ∧
        v = (history.get ⟨i, h⟩).close ∧
        ∀ j, ∀ hj : j < history.length, i < j →
          ¬ strLeB (history.get ⟨j, hj⟩).date.data q.data = true) ∧
    (Financials.closeOnOrBefore history q = none ↔
      ∀ i, ∀ h : i < history.length,
        ¬ strLeB (history.get ⟨i, h⟩).date.data q.data = true) := by
  have hpost := Financials.bsearchLoop_spec history q hs history.length 0
    ((history.length : ℤ) - 1) (-1) (by omega) (by omega) (by omega) (by omega)
    (by omega) (by omega) (by omega) (fun i hi _ => by omega)
    (fun i hbig hlen _ => by omega)
  obtain ⟨hm1, hlen, hq0, hmax⟩ := hpost
  constructor
  · intro v hv
    simp only [Financials.closeOnOrBefore] at hv
    by_cases hpos : 0 ≤ Financials.bsearchLoop history q 0 ((history.length : ℤ) - 1) (-1)
    · rw [if_pos hpos] at hv
      injection hv with hv
      set r := Financials.bsearchLoop history q 0 ((history.length : ℤ) - 1) (-1) with hr
      have hrlen : r.toNat < history.length := by omega
      refine ⟨r.toNat, hrlen, ?_, ?_, ?_⟩
      · rw [← Financials.getD_eq_get history r.toNat hrlen]
        exact hq0 hpos
      · rw [← Financials.getD_eq_get history r.toNat hrlen]
        exact hv.symm
      · intro j hj hjgt hqj
        have := hmax j hj (by rw [← Financials.getD_eq_get history j hj] at hqj; exact hqj)
        omega
    · rw [if_neg hpos] at hv
      exact absurd hv (by simp)
  · simp only [Financials.closeOnOrBefore]
    by_cases hpos : 0 ≤ Financials.bsearchLoop history q 0 ((history.length : ℤ) - 1) (-1)
    · rw [if_pos hpos]
      simp only [reduceCtorEq, false_iff, not_forall]
      set r := Financials.bsearchLoop history q 0 ((history.length : ℤ) - 1) (-1) with hr
      have hrlen : r.toNat < history.length := by omega
      refine ⟨r.toNat, hrlen, ?_⟩
      rw [not_not, ← Financials.getD_eq_get history r.toNat hrlen]
      exact hq0 hpos
    · rw [if_neg hpos]
      simp only [true_iff]
      intro i h hqi
      have := hmax i h (by rw [← Financials.getD_eq_get history i h] at hqi; exact hqi)
      omega

/-- Witness for C9 at a concrete three-entry sorted history: the query
2020-01-05 falls between the second and third entries. -/
theorem claim9_close_on_or_before_witness :
    (∀ v, Financials.closeOnOrBefore Financials.exHistory "2020-01-05" = some v →
      ∃ i, ∃ h : i < Financials.exHistory.length,
        strLeB (Financials.exHistory.get ⟨i, h⟩).date.data "2020-01-05".data = true ∧
        v = (Financials.exHistory.get ⟨i, h⟩).close ∧
        ∀ j, ∀ hj : j < Financials.exHistory.length, i < j →
          ¬ strLeB (Financials.exHistory.get ⟨j, hj⟩).date.data "2020-01-05".data = true) ∧
    (Financials.closeOnOrBefore Financials.exHistory "2020-01-05" = none ↔
      ∀ i, ∀ h : i < Financials.exHistory.length,
        ¬ strLeB (Financials.exHistory.get ⟨i, h⟩).date.data "2020-01-05".data = true) :=
  claim9_close_on_or_before Financials.exHistory "2020-01-05" (by decide)
